import Mathlib

/-!
Verification development for the ApolloScope scene-parsing index.

This file gives a shallow embedding of the two core components of the
repository and proves the specified properties about them:

* `Identifier` (src/apolloscope/scene_parsing/datatype/_identifier.py):
  a 3-level hierarchical identifier `rank1 -> rank2 -> set-of-rank3`
  stored as nested Python dicts, with union (`__or__`), component
  enumeration (`_sorted_components` / `components`), scalar accessors
  (`_rank_1`, `_rank_2`, `_rank_3`, `tuple`), comparison operators and
  `is_definite`.

* `Register` (src/apolloscope/scene_parsing/path/register.py): a sparse
  two-axis table of file paths with slicing (`type_slice`, `types`) and a
  CSV cache (`_df_to_cache` / `_df_from_cache`).

Embedding conventions:

* Python scalar field values are modelled by `PyVal`: either the `None`
  sentinel ("unset"), an integer, or a string.  These are the kinds that
  actually occur in the repository (`Type` uses strings, `Sequence` uses
  ints, every field is optional).
* Python dicts and sets are extensional (equality ignores insertion
  order), so they are represented canonically as association lists that
  are strictly sorted by a fixed total order `PyVal.blt` on keys.  This
  order is pure representation machinery; Python's own (partial,
  fallible) comparison is modelled separately by `pyLt` below.
* Python's `sorted` raises `TypeError` on arguments of mixed kinds
  (`None` never compares, ints and strings do not compare with each
  other).  Fallible computations return `Except PyErr`.
-/

inductive PyVal : Type where
  | none : PyVal
  | int (n : Int) : PyVal
  | str (s : String) : PyVal
deriving DecidableEq, Repr

/-- Python exceptions that the embedded operations can raise. -/
inductive PyErr : Type where
  | composite : PyErr
  | typeError : PyErr
deriving DecidableEq, Repr

namespace PyVal

/-- Character-wise lexicographic strict order on strings, by code point.
This matches Python's string comparison and, unlike Mathlib's `String`
order, evaluates inside the kernel. -/
def lexLt : List Char → List Char → Bool
  | [], [] => false
  | [], _ :: _ => true
  | _ :: _, [] => false
  | c :: cs, d :: ds => decide (c < d) || (decide (c = d) && lexLt cs ds)

/-- Kind tag of a value: the unset sentinel, ints and strings are three
mutually incomparable kinds for Python's `<`. -/
def kind : PyVal → Nat
  | .none => 0
  | .int _ => 1
  | .str _ => 2

/-- Canonical strict total order on `PyVal`, used only to keep the
association-list representation of Python dicts/sets in a canonical
shape (so that structural equality of representations coincides with
Python's extensional dict/set equality). -/
def blt : PyVal → PyVal → Bool
  | .int m, .int n => decide (m < n)
  | .str s, .str t => lexLt s.data t.data
  | a, b => decide (a.kind < b.kind)

end PyVal

/-- Python's binary `<` comparison on our scalar universe: defined within
ints and within strings, raising `TypeError` on any other combination
(in particular `None` compares with nothing, not even with itself). -/
def pyLt : PyVal → PyVal → Except PyErr Bool
  | .int m, .int n => .ok (decide (m < n))
  | .str s, .str t => .ok (PyVal.lexLt s.data t.data)
  | _, _ => .error .typeError

/-! ## Python dicts as canonically sorted association lists

A Python dict `{k: v, ...}` with `PyVal` keys is represented as a list of
pairs strictly sorted by `PyVal.blt` on the keys.  Dict equality in
Python is extensional, which on this canonical representation coincides
with structural list equality (`SMap.ext_lookup` below).  The merge used
by `Identifier._merge_ranks_*` — copy both dicts, then recombine the
values of common keys — is extensionally the fold `SMap.mergeWith`. -/

abbrev SMap (V : Type) := List (PyVal × V)

namespace SMap

variable {V : Type}


/-- Dict lookup, `d[k]` guarded by `k in d`. -/
def slookup (k : PyVal) : SMap V → Option V
  | [] => Option.none
  | p :: xs => if k = p.1 then some p.2 else slookup k xs

/-- Insert a binding into a canonically sorted dict, combining with `f`
(old value first) when the key is already present. -/
def insertWith (f : V → V → V) (k : PyVal) (v : V) : SMap V → SMap V
  | [] => [(k, v)]
  | p :: xs =>
    if k.blt p.1 then (k, v) :: p :: xs
    else if p.1.blt k then p :: insertWith f k v xs
    else (p.1, f p.2 v) :: xs

/-- Binary dict merge: keys unique to one operand pass through, values of
common keys are combined with `f` (left operand's value first).  This is
the extensional content of `Identifier._merge_ranks_1/2/3` applied to two
dicts. -/
def mergeWith (f : V → V → V) (m1 m2 : SMap V) : SMap V :=
  m2.foldl (fun acc p => insertWith f p.1 p.2 acc) m1

/-- Canonical-representation invariant: keys strictly increasing. -/
def KeySorted (m : SMap V) : Prop :=
  m.Pairwise (fun p q => p.1.blt q.1 = true)

/-- Combination of optional lookup results under a merge. -/
def combineOpt (f : V → V → V) : Option V → Option V → Option V
  | some v1, some v2 => some (f v1 v2)
  | some v1, Option.none => some v1
  | Option.none, o => o

end SMap

/-! ## Python `sorted`

Python's `sorted` raises `TypeError` as soon as it executes a comparison
between values of different kinds (or two `None`s), and it compares every
element against at least one element of the already-sorted remainder, so
a mixed-kind collection always raises.  We model it by a comparison-based
insertion sort in the `Except` monad: it raises exactly when some
executed `pyLt` comparison raises, which (proved below) happens iff the
input is not kind-homogeneous.  `Identifier._sorted_components` sorts
`dict.items()` lists, whose tuple comparison only ever consults the
(distinct) keys, so items are compared by their first component. -/

def exOk {α : Type} : Except PyErr α → Bool
  | .ok _ => true
  | .error _ => false

def insertE {W : Type} (p : PyVal × W) : List (PyVal × W) → Except PyErr (List (PyVal × W))
  | [] => .ok [p]
  | q :: xs => do
    let b ← pyLt p.1 q.1
    if b then
      .ok (p :: q :: xs)
    else do
      let r ← insertE p xs
      .ok (q :: r)

def sortItemsE {W : Type} : List (PyVal × W) → Except PyErr (List (PyVal × W))
  | [] => .ok []
  | p :: xs => do
    let r ← sortItemsE xs
    insertE p r

/-- A list of keyed items that Python can sort without raising: at most
one element, or all keys ints, or all keys strings. -/
def KindHomogeneous {W : Type} (l : List (PyVal × W)) : Prop :=
  l.length ≤ 1 ∨ (∀ p ∈ l, ∃ n, p.1 = PyVal.int n) ∨ (∀ p ∈ l, ∃ s, p.1 = PyVal.str s)

/-- Effectful map over a list in the `Except` monad, evaluating left to
right and stopping at the first raised exception. -/
def mapME {A B : Type} (f : A -> Except PyErr B) : List A -> Except PyErr (List B)
  | [] => .ok []
  | x :: xs => do
    let y <- f x
    let ys <- mapME f xs
    pure (y :: ys)

/-! ## The hierarchical `Identifier`

Embedding of `class Identifier` from
src/apolloscope/scene_parsing/datatype/_identifier.py.  The state is the
single attribute `_rank_1_map : dict[rank1, dict[rank2, set[rank3]]]`;
the rank-3 set is represented as a map to `Unit` so that the one dict
library above serves all three levels. -/

abbrev Rank3Set := SMap Unit

abbrev Rank2Map := SMap Rank3Set

abbrev Rank1Map := SMap Rank2Map

/-- A leaf triple `(rank_1, rank_2, rank_3)`. -/
abbrev Triple := PyVal × PyVal × PyVal

structure Identifier : Type where
  rank1Map : Rank1Map
deriving DecidableEq, Repr

namespace Identifier

/-- `Identifier.__init__(rank_1, rank_2, rank_3)`: a fundamental
identifier with exactly one leaf, `{rank_1: {rank_2: {rank_3}}}`.
Python defaults every argument to `None` (the unset sentinel); callers
of the model pass `PyVal.none` explicitly. -/
def init (rank_1 rank_2 rank_3 : PyVal) : Identifier :=
  ⟨[(rank_1, [(rank_2, [(rank_3, ())])])]⟩

/-- `Identifier._merge_ranks_3`: set union of the rank-3 sets. -/
def mergeRanks3 (s1 s2 : Rank3Set) : Rank3Set :=
  SMap.mergeWith (fun _ _ => ()) s1 s2

/-- `Identifier._merge_ranks_2` on two dicts: keys present in a single
operand pass through, the rank-3 sets of common keys are unioned. -/
def mergeRanks2 (m1 m2 : Rank2Map) : Rank2Map :=
  SMap.mergeWith mergeRanks3 m1 m2

/-- `Identifier._merge_ranks_1` on two dicts: keys present in a single
operand pass through, the rank-2 subtrees of common keys are merged
recursively. -/
def mergeRanks1 (m1 m2 : Rank1Map) : Rank1Map :=
  SMap.mergeWith mergeRanks2 m1 m2

/-- `Identifier.__or__` (and `__add__`, which delegates to it): the
union `Identifier._from_components(self, other)`, which merges the two
rank-1 maps.  The deep copies the source makes before merging are
identities in this pure embedding. -/
def union (a b : Identifier) : Identifier :=
  ⟨mergeRanks1 a.rank1Map b.rank1Map⟩

/-- The leaf triples of the tree in stored (canonical) order - the
mathematical component set, free of Python's fallible sorting. -/
def componentTriples (a : Identifier) : List Triple :=
  a.rank1Map.flatMap fun p1 =>
    p1.2.flatMap fun p2 =>
      p2.2.map fun p3 => (p1.1, p2.1, p3.1)

/-- `Identifier._sorted_components`: walk rank-1 keys in `sorted` order,
then rank-2 keys, then rank-3 values, collecting the leaf triples.  Any
of the `sorted` calls raises `TypeError` when its keys mix kinds.
`mapME` evaluates the comprehension left to right, as Python does. -/
def sortedComponents (a : Identifier) : Except PyErr (List Triple) := do
  let l1 ← sortItemsE a.rank1Map
  let parts ← mapME (fun p1 => do
    let l2 ← sortItemsE p1.2
    let parts2 ← mapME (fun p2 => do
      let l3 ← sortItemsE p2.2
      pure (l3.map fun p3 => (p1.1, p2.1, p3.1))) l2
    pure parts2.flatten) l1
  pure parts.flatten

/-- `Identifier._rank_1`: the sole rank-1 key; raises `CompositeError`
when the rank-1 dict has more than one key.  (The rank-1 dict of any
constructed identifier is non-empty; the empty case is unreachable.) -/
def rank_1 (a : Identifier) : Except PyErr PyVal :=
  if 1 < a.rank1Map.length then .error .composite
  else
    match a.rank1Map.head? with
    | some p => .ok p.1
    | Option.none => .error .composite

/-- `Identifier._rank_2`: the sole rank-2 key under the sole rank-1 key;
raises `CompositeError` when rank 1 or rank 2 has multiple values. -/
def rank_2 (a : Identifier) : Except PyErr PyVal := do
  let k1 ← a.rank_1
  match SMap.slookup k1 a.rank1Map with
  | some m2 =>
    if 1 < m2.length then .error .composite
    else
      match m2.head? with
      | some p => .ok p.1
      | Option.none => .error .composite
  | Option.none => .error .composite

/-- `Identifier._rank_3`: the sole element of the rank-3 set under the
sole rank-1 and rank-2 keys; raises `CompositeError` when any of the
three ranks has multiple values. -/
def rank_3 (a : Identifier) : Except PyErr PyVal := do
  let k1 ← a.rank_1
  let k2 ← a.rank_2
  match SMap.slookup k1 a.rank1Map with
  | some m2 =>
    match SMap.slookup k2 m2 with
    | some s3 =>
      if 1 < s3.length then .error .composite
      else
        match s3.head? with
        | some p => .ok p.1
        | Option.none => .error .composite
    | Option.none => .error .composite
  | Option.none => .error .composite

/-- `Identifier.tuple`: `(self._rank_1, self._rank_2, self._rank_3)`,
raising `CompositeError` as soon as one accessor does. -/
def tuple (a : Identifier) : Except PyErr Triple := do
  let k1 ← a.rank_1
  let k2 ← a.rank_2
  let k3 ← a.rank_3
  pure (k1, k2, k3)

/-- `Identifier.__le__`: subset test on the `components` sets, where
`components = set(self._sorted_components)`; computing either component
set can raise `TypeError`. -/
def le (a b : Identifier) : Except PyErr Bool := do
  let ca ← a.sortedComponents
  let cb ← b.sortedComponents
  pure (ca.all fun t => decide (t ∈ cb))

/-- `Identifier.__ge__`: superset test on the `components` sets. -/
def ge (a b : Identifier) : Except PyErr Bool := do
  let ca ← a.sortedComponents
  let cb ← b.sortedComponents
  pure (cb.all fun t => decide (t ∈ ca))

/-- `Identifier.__lt__`: proper-subset test on the `components` sets. -/
def lt (a b : Identifier) : Except PyErr Bool := do
  let ca ← a.sortedComponents
  let cb ← b.sortedComponents
  pure ((ca.all fun t => decide (t ∈ cb)) && !(cb.all fun t => decide (t ∈ ca)))

/-- `Identifier.__gt__`: proper-superset test on the `components` sets. -/
def gt (a b : Identifier) : Except PyErr Bool := do
  let ca ← a.sortedComponents
  let cb ← b.sortedComponents
  pure ((cb.all fun t => decide (t ∈ ca)) && !(ca.all fun t => decide (t ∈ cb)))

/-- `Identifier.is_composite`: `len(self.components) > 1`, where
`components` is the set of sorted components (`set` deduplicates). -/
def isComposite (a : Identifier) : Except PyErr Bool := do
  let ca ← a.sortedComponents
  pure (1 < ca.dedup.length)

/-- A single leaf with no unset field - `is_definite` of a fundamental
identifier. -/
def tripleDefinite (t : Triple) : Bool :=
  decide (t.1 ≠ PyVal.none) && decide (t.2.1 ≠ PyVal.none) && decide (t.2.2 ≠ PyVal.none)

/-- The `try` body of `Identifier.is_definite`:
`self._rank_1 is not None and self._rank_2 is not None and
self._rank_3 is not None` with Python's short-circuiting. -/
def isDefiniteTry (a : Identifier) : Except PyErr Bool := do
  let k1 ← a.rank_1
  if k1 = PyVal.none then pure false
  else do
    let k2 ← a.rank_2
    if k2 = PyVal.none then pure false
    else do
      let k3 ← a.rank_3
      pure (decide (k3 ≠ PyVal.none))

/-- `Identifier.is_definite`: try the scalar accessors; on
`CompositeError` fall back to `all(c.is_definite for c in
self.components)` (each component is fundamental, where `is_definite`
reduces to `tripleDefinite`); a `TypeError` from `components`
propagates. -/
def isDefinite (a : Identifier) : Except PyErr Bool :=
  match a.isDefiniteTry with
  | .ok b => .ok b
  | .error .composite =>
    match a.sortedComponents with
    | .ok l => .ok (l.all tripleDefinite)
    | .error e => .error e
  | .error e => .error e

/-- Canonical-representation invariant for a rank-3 set. -/
def Rank3Canon (s : Rank3Set) : Prop :=
  SMap.KeySorted s ∧ s ≠ []

/-- Canonical-representation invariant for a rank-2 dict: sorted,
non-empty, and every value a canonical non-empty rank-3 set. -/
def Rank2Canon (m : Rank2Map) : Prop :=
  SMap.KeySorted m ∧ m ≠ [] ∧ ∀ p ∈ m, Rank3Canon p.2

/-- Canonical-representation invariant for a rank-1 dict. -/
def Rank1Canon (m : Rank1Map) : Prop :=
  SMap.KeySorted m ∧ m ≠ [] ∧ ∀ p ∈ m, Rank2Canon p.2

/-- Canonical-representation invariant for a whole identifier. -/
def Canon (a : Identifier) : Prop :=
  Rank1Canon a.rank1Map

/-- The identifiers reachable through the public API: constructed by
`__init__` or combined by `__or__`/`__add__`. -/
inductive Reachable : Identifier → Prop
  | init (r1 r2 r3 : PyVal) : Reachable (Identifier.init r1 r2 r3)
  | union {a b : Identifier} : Reachable a → Reachable b → Reachable (a.union b)

/-- The rows contributed by one rank-2 entry under rank-1 key `k1`. -/
def rowOf (k1 : PyVal) (p2 : PyVal × Rank3Set) : List Triple :=
  p2.2.map fun p3 => (k1, p2.1, p3.1)

/-- The rows contributed by one rank-1 entry. -/
def treeRows (p1 : PyVal × Rank2Map) : List Triple :=
  p1.2.flatMap (rowOf p1.1)

/-- Kind-homogeneity at every level of the tree: exactly the condition
for none of the `sorted` calls of `_sorted_components` to raise. -/
def KindsOk (a : Identifier) : Prop :=
  KindHomogeneous a.rank1Map ∧
    ∀ p1 ∈ a.rank1Map, KindHomogeneous p1.2 ∧ ∀ p2 ∈ p1.2, KindHomogeneous p2.2

end Identifier

/-! ## The `Register` table

Embedding of `Register` from src/apolloscope/scene_parsing/path/register.py.
The pandas DataFrame is a sparse two-axis table: rows keyed by the int
tuple `(road, record, camera, date)`, columns keyed by the string tuple
`(section, subsection, file_type)`, each cell an optional path string
(`None`/NaN = missing).  Rows store their cells aligned with the column
list.  `type_slice` uses `Type.slicer` (one `slice(v, v)` per level, or
`slice(None, None)` for an unset field), which on a sorted MultiIndex
selects the columns matching every set field. -/

abbrev ColKey := String × String × String

abbrev RowKey := Nat × Nat × Nat × Nat

structure Table where
  cols : List ColKey
  rows : List (RowKey × List (Option String))
deriving DecidableEq, Repr

/-- The `Type` named tuple of
src/apolloscope/scene_parsing/path/identifier.py: three optional string
fields `section`, `subsection`, `file_type` (named `sect`, `subsect`,
`fileType` here because `section` is a Lean keyword). -/
structure TypeId where
  sect : Option String
  subsect : Option String
  fileType : Option String
deriving DecidableEq, Repr

/-- One level of `Type.slicer`: `slice(v, v)` selects label `v` exactly;
`slice(None, None)` selects everything. -/
def fieldMatch (f : Option String) (v : String) : Bool :=
  match f with
  | Option.none => true
  | some s => decide (s = v)

/-- Whether a column key is selected by `type_.slicer`. -/
def TypeId.matches (t : TypeId) (c : ColKey) : Bool :=
  fieldMatch t.sect c.1 && fieldMatch t.subsect c.2.1 && fieldMatch t.fileType c.2.2

/-- Keep the elements of a list whose mask bit is true (column
selection applied to the column list and to each row's cells). -/
def maskFilter {A : Type} : List Bool → List A → List A
  | b :: bs, x :: xs => if b then x :: maskFilter bs xs else maskFilter bs xs
  | _, _ => []

namespace Table

/-- Cells of one row restricted to the columns selected by `type_`
(`None` = the Python `None` argument, which returns the whole table). -/
def sliceCells (r : Table) (t : Option TypeId) (cells : List (Option String)) :
    List (Option String) :=
  match t with
  | Option.none => cells
  | some ty => maskFilter (r.cols.map ty.matches) cells

/-- `Register.type_slice`: the sub-table of the columns selected by the
slicer; `None` returns the table unchanged. -/
def type_slice (r : Table) (t : Option TypeId) : Table :=
  match t with
  | Option.none => r
  | some ty =>
    ⟨maskFilter (r.cols.map ty.matches) r.cols,
     r.rows.map fun p => (p.1, maskFilter (r.cols.map ty.matches) p.2)⟩

/-- `pd.concat((self.type_slice(t) for t in type_ids), axis=1)`: the
slices share this table's row index, so concatenation along the column
axis stacks the selected columns and, per row, the selected cells. -/
def hjoin (r : Table) (ts : List (Option TypeId)) : Table :=
  ⟨ts.flatMap fun t => (r.type_slice t).cols,
   r.rows.map fun p => (p.1, ts.flatMap fun t => r.sliceCells t p.2)⟩

/-- `DataFrame.dropna()` with default arguments: drop every row that
contains at least one missing value. -/
def dropnaRows (r : Table) : Table :=
  ⟨r.cols, r.rows.filter fun p => p.2.all Option.isSome⟩

/-- `Register.types`: concatenate the type slices along the column axis,
then `.dropna()`. -/
def types (r : Table) (ts : List (Option TypeId)) : Table :=
  dropnaRows (hjoin r ts)

/-- Pointwise or of two masks. -/
def orMask : List Bool → List Bool → List Bool
  | b :: bs, c :: cs => (b || c) :: orMask bs cs
  | _, _ => []

/-- Mask of columns holding at least one non-missing cell. -/
def colMask (t : Table) : List Bool :=
  t.rows.foldl (fun acc p => orMask acc (p.2.map Option.isSome)) (t.cols.map fun _ => false)

/-- Drop the columns that are entirely empty. -/
def dropEmptyCols (t : Table) : Table :=
  ⟨maskFilter (colMask t) t.cols, t.rows.map fun p => (p.1, maskFilter (colMask t) p.2)⟩

/-- Modelled from the spec: the behaviour claim C2 ascribes to
`Register.types` — concatenate the slices along the column axis, "then
drop columns made entirely empty", removing no row.  Compared against
the source's `types` above. -/
def typesSpecDescribed (r : Table) (ts : List (Option TypeId)) : Table :=
  dropEmptyCols (hjoin r ts)

/-- The (row-key, column-key) -> value entries of the table, missing
cells included. -/
def entries (t : Table) : List (RowKey × ColKey × Option String) :=
  t.rows.flatMap fun p => List.zipWith (fun c v => (p.1, c, v)) t.cols p.2

/-- Cells hold either a missing marker or a non-empty path string, and
each row is aligned with the column list.  Tables built from scan
records satisfy this: the paths captured by the scan regex are non-empty
strings, and the pivot fills every (row, column) cell. -/
def WellFormed (t : Table) : Prop :=
  ∀ p ∈ t.rows, p.2.length = t.cols.length ∧ ∀ c ∈ p.2, c ≠ some ""

end Table

/-! ## The CSV cache

Modelled from the spec: the cache file format of `_df_to_cache` /
`_df_from_cache` (pandas `to_csv` / `read_csv`, which are not part of
the source tree) per the spec's cache-format section: three header rows
(one per type-field level), four leading index columns holding the row
key, all values as plain text, missing cells stored as an empty field,
and everything read back as strings (`dtype='object'`).  A CSV file is
idealised as a list of records of fields. -/

/-- A table as read back from the cache: row keys are plain strings. -/
structure TableS where
  cols : List ColKey
  rows : List ((String × String × String × String) × List (Option String))
deriving DecidableEq, Repr

/-- Missing cells are stored as an empty field. -/
def renderCell : Option String → String
  | Option.none => ""
  | some s => s

/-- Reading `dtype='object'`: an empty field is a missing value (NaN),
anything else the string itself. -/
def parseCell (s : String) : Option String :=
  if s = "" then Option.none else some s

/-- The four index fields of one data row, as decimal text. -/
def renderRowKey (k : RowKey) : List String :=
  [toString k.1, toString k.2.1, toString k.2.2.1, toString k.2.2.2]

/-- The row key as read back: four strings. -/
def renderKey (k : RowKey) : String × String × String × String :=
  (toString k.1, toString k.2.1, toString k.2.2.1, toString k.2.2.2)

/-- The loaded image of a table: same columns and cells, string keys. -/
def renderTable (t : Table) : TableS :=
  ⟨t.cols, t.rows.map fun p => (renderKey p.1, p.2)⟩

/-- The entries of a loaded table. -/
def TableS.entriesS (t : TableS) :
    List ((String × String × String × String) × ColKey × Option String) :=
  t.rows.flatMap fun p => List.zipWith (fun c v => (p.1, c, v)) t.cols p.2

/-- `Register._df_to_cache`: three header rows (blank over the four
index columns, then one column level each), then one record per row:
the four key fields followed by the cells, missing as empty. -/
def toCsv (t : Table) : List (List String) :=
  ("" :: "" :: "" :: "" :: t.cols.map fun c => c.1)
  :: ("" :: "" :: "" :: "" :: t.cols.map fun c => c.2.1)
  :: ("" :: "" :: "" :: "" :: t.cols.map fun c => c.2.2)
  :: t.rows.map fun p => renderRowKey p.1 ++ p.2.map renderCell

/-- Map in the `Option` monad. -/
def mapMO {A B : Type} (f : A → Option B) : List A → Option (List B)
  | [] => some []
  | x :: xs =>
    match f x, mapMO f xs with
    | some y, some ys => some (y :: ys)
    | _, _ => Option.none

/-- Rebuild the three-level column keys from the header rows. -/
def zipCols : List String → List String → List String → List ColKey
  | a :: as1, b :: bs, c :: cs => (a, b, c) :: zipCols as1 bs cs
  | _, _, _ => []

/-- Parse one data record: four index fields, then the cells. -/
def parseRow (fields : List String) :
    Option ((String × String × String × String) × List (Option String)) :=
  match fields with
  | a :: b :: c :: d :: cells => some ((a, b, c, d), cells.map parseCell)
  | _ => Option.none

/-- `Register._df_from_cache`: `read_csv` with `header=[0,1,2]`,
`index_col=[0,1,2,3]`, `dtype='object'`. -/
def fromCsv (csv : List (List String)) : Option TableS :=
  match csv with
  | h1 :: h2 :: h3 :: data =>
    match mapMO parseRow data with
    | some rows => some ⟨zipCols (h1.drop 4) (h2.drop 4) (h3.drop 4), rows⟩
    | Option.none => Option.none
  | _ => Option.none

/-! ## Register construction and the cache fallback

Embedding of `Register.__init__` (the construction logic is in the
source; the file-system and pandas reads it performs are modelled by an
explicit environment). -/

/-- The file-system state `__init__` interacts with: whether the cache
file exists and what it holds, whether the dataset root exists and what
scanning it produces. -/
structure Env where
  cacheExists : Bool
  cacheTable : TableS
  rootExists : Bool
  scanTable : Table

/-- The two `FileNotFoundError` conditions of register construction. -/
inductive FsError : Type where
  | cacheNotFound : FsError
  | rootNotFound : FsError
deriving DecidableEq, Repr

/-- The table a register ends up holding: loaded from the cache (string
typed) or built from a file-system scan. -/
inductive RegisterData : Type where
  | fromCache (t : TableS) : RegisterData
  | fromScan (t : Table) : RegisterData
deriving DecidableEq, Repr

/-- `Register._df_from_cache`: raises `FileNotFoundError` when the cache
file does not exist (modelled through `Env`). -/
def df_from_cache (env : Env) : Except FsError TableS :=
  if env.cacheExists then .ok env.cacheTable else .error .cacheNotFound

/-- `Register._df_from_file_system`: raises `FileNotFoundError` when the
root path does not exist, otherwise builds the table by scanning. -/
def df_from_file_system (env : Env) : Except FsError Table :=
  if env.rootExists then .ok env.scanTable else .error .rootNotFound

/-- `Register.__init__(root=..., use_cache_index=...)`: with
`use_cache_index` try the cache first; on `FileNotFoundError` log a
warning and fall back to building from the file system (then re-cache,
which does not affect the resulting table). -/
def registerInit (env : Env) (useCacheIndex : Bool) : Except FsError RegisterData :=
  if useCacheIndex then
    match df_from_cache env with
    | .ok t => .ok (.fromCache t)
    | .error _ => (df_from_file_system env).map RegisterData.fromScan
  else (df_from_file_system env).map RegisterData.fromScan

namespace PyVal

theorem lexLt_irrefl (l : List Char) : lexLt l l = false := by
  induction l with
  | nil => rfl
  | cons c cs ih => simp [lexLt, ih]

theorem lexLt_trans : ∀ {l1 l2 l3 : List Char},
    lexLt l1 l2 = true → lexLt l2 l3 = true → lexLt l1 l3 = true
  | [], _ :: _, _ :: _, _, _ => rfl
  | c :: cs, d :: ds, e :: es, h1, h2 => by
    simp only [lexLt, Bool.or_eq_true, Bool.and_eq_true, decide_eq_true_eq] at *
    rcases h1 with h1 | ⟨rfl, h1⟩ <;> rcases h2 with h2 | ⟨rfl, h2⟩
    · exact Or.inl (lt_trans h1 h2)
    · exact Or.inl h1
    · exact Or.inl h2
    · exact Or.inr ⟨rfl, lexLt_trans h1 h2⟩

theorem lexLt_conn : ∀ {l1 l2 : List Char},
    l1 ≠ l2 → lexLt l1 l2 = true ∨ lexLt l2 l1 = true
  | [], [], h => absurd rfl h
  | [], _ :: _, _ => Or.inl rfl
  | _ :: _, [], _ => Or.inr rfl
  | c :: cs, d :: ds, h => by
    simp only [lexLt, Bool.or_eq_true, Bool.and_eq_true, decide_eq_true_eq]
    rcases eq_or_ne c d with rfl | hcd
    · have : cs ≠ ds := fun hc => h (by rw [hc])
      rcases lexLt_conn this with h' | h'
      · exact Or.inl (Or.inr ⟨rfl, h'⟩)
      · exact Or.inr (Or.inr ⟨rfl, h'⟩)
    · rcases lt_or_gt_of_ne hcd with h' | h'
      · exact Or.inl (Or.inl h')
      · exact Or.inr (Or.inl h')

theorem blt_irrefl (a : PyVal) : a.blt a = false := by
  cases a <;> simp [blt, lexLt_irrefl]

theorem blt_trans : ∀ {a b c : PyVal}, a.blt b = true → b.blt c = true → a.blt c = true := by
  intro a b c h1 h2
  cases a <;> cases b <;> cases c <;>
    simp only [blt, kind, decide_eq_true_eq] at * <;>
    first
      | omega
      | exact lt_trans h1 h2
      | exact lexLt_trans h1 h2

theorem blt_conn : ∀ {a b : PyVal}, a ≠ b → a.blt b = true ∨ b.blt a = true := by
  intro a b h
  cases a <;> cases b <;> simp only [blt, kind, decide_eq_true_eq] <;> try omega
  · exact absurd rfl h
  case int.int m n =>
    have : m ≠ n := fun hc => h (by rw [hc])
    omega
  case str.str s t =>
    have : s.data ≠ t.data := fun hc => h (by cases s; cases t; simp_all)
    exact lexLt_conn this

theorem blt_asymm {a b : PyVal} (h : a.blt b = true) : b.blt a = false := by
  by_contra hc
  have h2 : b.blt a = true := by revert hc; cases (b.blt a) <;> simp
  have := blt_trans h h2
  rw [blt_irrefl] at this
  exact Bool.false_ne_true this

theorem eq_of_not_blt {a b : PyVal} (h1 : a.blt b = false) (h2 : b.blt a = false) : a = b := by
  by_contra hne
  rcases blt_conn hne with h | h <;> simp_all

end PyVal

namespace SMap

variable {V : Type}


theorem combineOpt_none_right (f : V → V → V) (o : Option V) :
    combineOpt f o Option.none = o := by
  cases o <;> rfl

theorem slookup_eq_none (k : PyVal) {m : SMap V} (h : ∀ p ∈ m, k ≠ p.1) :
    slookup k m = Option.none := by
  induction m with
  | nil => rfl
  | cons p xs ih =>
    simp only [slookup, if_neg (h p (by simp))]
    exact ih fun q hq => h q (by simp [hq])

theorem slookup_eq_none_of_blt {k : PyVal} {m : SMap V}
    (h : ∀ p ∈ m, k.blt p.1 = true) : slookup k m = Option.none :=
  slookup_eq_none k fun p hp he => by
    have hb := h p hp
    rw [← he, PyVal.blt_irrefl] at hb
    exact Bool.false_ne_true hb

theorem mem_of_slookup {k : PyVal} {m : SMap V} {v : V}
    (h : slookup k m = some v) : (k, v) ∈ m := by
  induction m with
  | nil => simp [slookup] at h
  | cons p xs ih =>
    rw [slookup] at h
    split at h
    · rename_i heq
      injection h with h1
      subst h1
      subst heq
      exact List.mem_cons_self _ _
    · exact List.mem_cons_of_mem _ (ih h)

theorem slookup_of_mem {k : PyVal} {m : SMap V} {v : V}
    (hs : KeySorted m) (h : (k, v) ∈ m) : slookup k m = some v := by
  induction m with
  | nil => simp at h
  | cons p xs ih =>
    rcases List.mem_cons.mp h with rfl | h'
    · simp [slookup]
    · have hk : k ≠ p.1 := by
        intro he
        have := (List.pairwise_cons.mp hs).1 (k, v) h'
        rw [he] at this
        rw [PyVal.blt_irrefl] at this
        exact Bool.false_ne_true this
      simp only [slookup, if_neg hk]
      exact ih (List.pairwise_cons.mp hs).2 h'

theorem mem_insertWith {f : V → V → V} {k : PyVal} {v : V} {m : SMap V} {p : PyVal × V}
    (h : p ∈ insertWith f k v m) :
    (p.1 = k ∧ (p.2 = v ∨ ∃ v1, (k, v1) ∈ m ∧ p.2 = f v1 v)) ∨ p ∈ m := by
  induction m with
  | nil => simp only [insertWith, List.mem_singleton] at h; subst h; simp
  | cons q xs ih =>
    simp only [insertWith] at h
    by_cases h1 : k.blt q.1 <;> simp only [h1, if_pos, if_neg, ite_true, ite_false] at h
    · rcases List.mem_cons.mp h with rfl | h' <;> simp_all
    · by_cases h2 : q.1.blt k <;>
        simp only [h2, if_pos, if_neg, ite_true, ite_false] at h
      · rcases List.mem_cons.mp h with rfl | h'
        · simp
        · rcases ih h' with ⟨he, hv⟩ | hm
          · refine Or.inl ⟨he, ?_⟩
            rcases hv with hv | ⟨v1, hv1, hfv⟩
            · exact Or.inl hv
            · exact Or.inr ⟨v1, List.mem_cons_of_mem _ hv1, hfv⟩
          · exact Or.inr (List.mem_cons_of_mem _ hm)
      · have hk : q.1 = k := (PyVal.eq_of_not_blt (by simpa using h2) (by simpa using h1)).symm ▸ rfl
        rcases List.mem_cons.mp h with rfl | h'
        · subst hk
          exact Or.inl ⟨rfl, Or.inr ⟨q.2, by simp, rfl⟩⟩
        · exact Or.inr (List.mem_cons_of_mem _ h')

theorem keySorted_insertWith {f : V → V → V} {k : PyVal} {v : V} {m : SMap V}
    (hs : KeySorted m) : KeySorted (insertWith f k v m) := by
  induction m with
  | nil => simp [insertWith, KeySorted]
  | cons q xs ih =>
    obtain ⟨hq, hxs⟩ := List.pairwise_cons.mp hs
    rw [insertWith]
    split
    · rename_i h1
      exact List.pairwise_cons.mpr
        ⟨fun p hp => by
          rcases List.mem_cons.mp hp with rfl | hp'
          · exact h1
          · exact PyVal.blt_trans h1 (hq p hp'), hs⟩
    · split
      · rename_i h1 h2
        refine List.pairwise_cons.mpr ⟨fun p hp => ?_, ih hxs⟩
        rcases mem_insertWith hp with ⟨he, _⟩ | hm
        · rw [he]; exact h2
        · exact hq p hm
      · rename_i h1 h2
        have hk : k = q.1 :=
          PyVal.eq_of_not_blt (Bool.of_not_eq_true h1) (Bool.of_not_eq_true h2)
        exact List.pairwise_cons.mpr ⟨hq, hxs⟩

theorem slookup_insertWith {f : V → V → V} {k : PyVal} {v : V} {m : SMap V}
    (hs : KeySorted m) (k' : PyVal) :
    slookup k' (insertWith f k v m) =
      if k' = k then combineOpt f (slookup k m) (some v) else slookup k' m := by
  induction m with
  | nil =>
    by_cases hk : k' = k <;> simp [insertWith, slookup, hk, combineOpt]
  | cons q xs ih =>
    obtain ⟨hq, hxs⟩ := List.pairwise_cons.mp hs
    have hslq : ∀ k0, k0 ≠ q.1 → slookup k0 (q :: xs) = slookup k0 xs :=
      fun k0 h0 => by simp [slookup, h0]
    rw [insertWith]
    split
    · rename_i h1
      have hkq : slookup k (q :: xs) = Option.none := by
        apply slookup_eq_none_of_blt
        intro p hp
        rcases List.mem_cons.mp hp with rfl | hp'
        · exact h1
        · exact PyVal.blt_trans h1 (hq p hp')
      rw [hkq]
      by_cases hk : k' = k <;> simp [slookup, hk, combineOpt]
    · split
      · rename_i h1 h2
        have hkq : k ≠ q.1 := by
          intro he
          rw [he, PyVal.blt_irrefl] at h2
          exact Bool.false_ne_true h2
        by_cases hk'q : k' = q.1
        · have hne : k' ≠ k := fun he => hkq (by rw [← he]; exact hk'q)
          have hne2 : q.1 ≠ k := fun he => hkq he.symm
          simp [slookup, hk'q, hne, hne2]
        · rw [hslq k hkq]
          have h3 : slookup k' (q :: insertWith f k v xs) = slookup k' (insertWith f k v xs) := by
            simp [slookup, hk'q]
          by_cases hk : k' = k
          · rw [if_pos hk, h3, ih hxs, if_pos hk]
          · rw [if_neg hk, h3, ih hxs, if_neg hk, hslq k' hk'q]
      · rename_i h1 h2
        have he : k = q.1 :=
          PyVal.eq_of_not_blt (Bool.of_not_eq_true h1) (Bool.of_not_eq_true h2)
        by_cases hk : k' = k
        · simp [slookup, hk, he, combineOpt]
        · have hk'q : k' ≠ q.1 := fun hc => hk (hc.trans he.symm)
          simp [slookup, hk, hk'q]

theorem keySorted_mergeWith {f : V → V → V} {m1 m2 : SMap V}
    (hs1 : KeySorted m1) : KeySorted (mergeWith f m1 m2) := by
  induction m2 generalizing m1 with
  | nil => exact hs1
  | cons p xs ih => exact ih (keySorted_insertWith hs1)

theorem slookup_mergeWith {f : V → V → V} {m1 m2 : SMap V}
    (hs1 : KeySorted m1) (hs2 : KeySorted m2) (k : PyVal) :
    slookup k (mergeWith f m1 m2) = combineOpt f (slookup k m1) (slookup k m2) := by
  induction m2 generalizing m1 with
  | nil => simp [mergeWith, combineOpt_none_right, slookup]
  | cons p xs ih =>
    obtain ⟨hp, hxs⟩ := List.pairwise_cons.mp hs2
    have step : mergeWith f m1 (p :: xs) = mergeWith f (insertWith f p.1 p.2 m1) xs := rfl
    rw [step, ih (keySorted_insertWith hs1) hxs,
      slookup_insertWith hs1 k]
    by_cases hk : k = p.1
    · have hnone : slookup k xs = Option.none :=
        slookup_eq_none_of_blt (fun q hq => by rw [hk]; exact hp q hq)
      rw [if_pos hk, hnone, combineOpt_none_right]
      have hpx : slookup k (p :: xs) = some p.2 := by simp [slookup, hk]
      rw [hpx, hk]
    · rw [if_neg hk]
      have hpx : slookup k (p :: xs) = slookup k xs := by simp [slookup, hk]
      rw [hpx]

theorem ext_lookup {m1 m2 : SMap V} (hs1 : KeySorted m1) (hs2 : KeySorted m2)
    (h : ∀ k, slookup k m1 = slookup k m2) : m1 = m2 := by
  induction m1 generalizing m2 with
  | nil =>
    cases m2 with
    | nil => rfl
    | cons q ys =>
      have := h q.1
      simp [slookup] at this
  | cons p xs ih =>
    cases m2 with
    | nil =>
      have := h p.1
      simp [slookup] at this
    | cons q ys =>
      obtain ⟨hpx, hxs⟩ := List.pairwise_cons.mp hs1
      obtain ⟨hqy, hys⟩ := List.pairwise_cons.mp hs2
      have hkey : p.1 = q.1 := by
        by_contra hne
        rcases PyVal.blt_conn hne with hb | hb
        · have h1 := h p.1
          simp only [slookup, if_pos rfl] at h1
          rw [if_neg (fun he : p.1 = q.1 => hne he)] at h1
          have : slookup p.1 ys = Option.none :=
            slookup_eq_none_of_blt (fun r hr => PyVal.blt_trans hb (hqy r hr))
          rw [this] at h1
          exact Option.some_ne_none _ h1
        · have h1 := h q.1
          simp only [slookup, if_pos rfl] at h1
          rw [if_neg (fun he : q.1 = p.1 => hne he.symm)] at h1
          have : slookup q.1 xs = Option.none :=
            slookup_eq_none_of_blt (fun r hr => PyVal.blt_trans hb (hpx r hr))
          rw [this] at h1
          exact Option.some_ne_none _ h1.symm
      have hval : p.2 = q.2 := by
        have h1 := h p.1
        simp only [slookup, if_pos rfl, hkey, if_pos rfl] at h1
        exact Option.some.inj h1
      have htail : xs = ys := by
        apply ih hxs hys
        intro k
        by_cases hkp : k = p.1
        · have hx : slookup k xs = Option.none :=
            slookup_eq_none_of_blt (fun r hr => by rw [hkp]; exact hpx r hr)
          have hy : slookup k ys = Option.none :=
            slookup_eq_none_of_blt (fun r hr => by rw [hkp, hkey]; exact hqy r hr)
          rw [hx, hy]
        · have h1 := h k
          simp only [slookup, if_neg hkp] at h1
          rw [if_neg (fun he : k = q.1 => hkp (he.trans hkey.symm))] at h1
          exact h1
      calc p :: xs = (p.1, p.2) :: xs := rfl
        _ = (q.1, q.2) :: ys := by rw [hkey, hval, htail]
        _ = q :: ys := rfl

theorem insertWith_ne_nil (f : V → V → V) (k : PyVal) (v : V) (m : SMap V) :
    insertWith f k v m ≠ [] := by
  cases m with
  | nil => simp [insertWith]
  | cons p xs =>
    rw [insertWith]
    split
    · simp
    · split <;> simp

theorem mergeWith_ne_nil_left {f : V → V → V} {m1 m2 : SMap V} (h : m1 ≠ []) :
    mergeWith f m1 m2 ≠ [] := by
  induction m2 generalizing m1 with
  | nil => exact h
  | cons p xs ih => exact ih (insertWith_ne_nil f p.1 p.2 m1)

theorem mergeWith_ne_nil_right {f : V → V → V} {m1 m2 : SMap V} (h : m2 ≠ []) :
    mergeWith f m1 m2 ≠ [] := by
  cases m2 with
  | nil => exact absurd rfl h
  | cons p xs =>
    show mergeWith f (insertWith f p.1 p.2 m1) xs ≠ []
    exact mergeWith_ne_nil_left (insertWith_ne_nil f p.1 p.2 m1)

theorem forall_mem_insertWith {f : V → V → V} {P : V → Prop} {k : PyVal} {v : V} {m : SMap V}
    (hf : ∀ v1 v2, P v1 → P v2 → P (f v1 v2))
    (hm : ∀ p ∈ m, P p.2) (hv : P v) : ∀ p ∈ insertWith f k v m, P p.2 := by
  intro p hp
  rcases mem_insertWith hp with ⟨_, h2⟩ | hmem
  · rcases h2 with he | ⟨v1, hv1, he⟩
    · rw [he]; exact hv
    · rw [he]; exact hf v1 v (hm _ hv1) hv
  · exact hm p hmem

theorem forall_mem_mergeWith {f : V → V → V} {P : V → Prop} {m1 m2 : SMap V}
    (hf : ∀ v1 v2, P v1 → P v2 → P (f v1 v2))
    (h1 : ∀ p ∈ m1, P p.2) (h2 : ∀ p ∈ m2, P p.2) :
    ∀ p ∈ mergeWith f m1 m2, P p.2 := by
  induction m2 generalizing m1 with
  | nil => exact h1
  | cons p xs ih =>
    exact ih (forall_mem_insertWith hf h1 (h2 p (by simp)))
      (fun q hq => h2 q (List.mem_cons_of_mem _ hq))

theorem mergeWith_comm {f : V → V → V} {P : V → Prop} {m1 m2 : SMap V}
    (hs1 : KeySorted m1) (hs2 : KeySorted m2)
    (h1 : ∀ p ∈ m1, P p.2) (h2 : ∀ p ∈ m2, P p.2)
    (hf : ∀ v1 v2, P v1 → P v2 → f v1 v2 = f v2 v1) :
    mergeWith f m1 m2 = mergeWith f m2 m1 := by
  apply ext_lookup (keySorted_mergeWith hs1) (keySorted_mergeWith hs2)
  intro k
  rw [slookup_mergeWith hs1 hs2 k, slookup_mergeWith hs2 hs1 k]
  cases e1 : slookup k m1 <;> cases e2 : slookup k m2 <;> simp only [combineOpt]
  rename_i v1 v2
  rw [hf v1 v2 (h1 _ (mem_of_slookup e1)) (h2 _ (mem_of_slookup e2))]

theorem mergeWith_assoc {f : V → V → V} {P : V → Prop} {m1 m2 m3 : SMap V}
    (hs1 : KeySorted m1) (hs2 : KeySorted m2) (hs3 : KeySorted m3)
    (h1 : ∀ p ∈ m1, P p.2) (h2 : ∀ p ∈ m2, P p.2) (h3 : ∀ p ∈ m3, P p.2)
    (hf : ∀ v1 v2 v3, P v1 → P v2 → P v3 → f (f v1 v2) v3 = f v1 (f v2 v3)) :
    mergeWith f (mergeWith f m1 m2) m3 = mergeWith f m1 (mergeWith f m2 m3) := by
  apply ext_lookup (keySorted_mergeWith (keySorted_mergeWith hs1))
    (keySorted_mergeWith hs1)
  intro k
  rw [slookup_mergeWith (keySorted_mergeWith hs1) hs3 k,
    slookup_mergeWith hs1 hs2 k,
    slookup_mergeWith hs1 (keySorted_mergeWith hs2) k,
    slookup_mergeWith hs2 hs3 k]
  cases e1 : slookup k m1 <;> cases e2 : slookup k m2 <;> cases e3 : slookup k m3 <;>
    simp only [combineOpt]
  rename_i v1 v2 v3
  rw [hf v1 v2 v3 (h1 _ (mem_of_slookup e1)) (h2 _ (mem_of_slookup e2))
    (h3 _ (mem_of_slookup e3))]

theorem mergeWith_idem {f : V → V → V} {P : V → Prop} {m : SMap V}
    (hs : KeySorted m) (hm : ∀ p ∈ m, P p.2) (hf : ∀ v, P v → f v v = v) :
    mergeWith f m m = m := by
  apply ext_lookup (keySorted_mergeWith hs) hs
  intro k
  rw [slookup_mergeWith hs hs k]
  cases e : slookup k m <;> simp only [combineOpt]
  rename_i v
  rw [hf v (hm _ (mem_of_slookup e))]

end SMap

theorem insertE_ok_perm {W : Type} {p : PyVal × W} :
    ∀ {l r : List (PyVal × W)}, insertE p l = .ok r → r.Perm (p :: l)
  | [], r, h => by
    rw [insertE] at h
    injection h with h
    rw [← h]
  | q :: xs, r, h => by
    rw [insertE] at h
    cases hc : pyLt p.1 q.1 with
    | error e => rw [hc] at h; exact absurd h (by simp [Bind.bind, Except.bind])
    | ok b =>
      rw [hc] at h
      simp only [Bind.bind, Except.bind] at h
      cases b with
      | true =>
        simp only [if_pos] at h
        injection h with h
        rw [← h]
      | false =>
        rw [if_neg (by simp)] at h
        cases hr : insertE p xs with
        | error e => rw [hr] at h; exact absurd h (by simp)
        | ok r' =>
          rw [hr] at h
          simp only [Except.ok.injEq] at h
          rw [← h]
          exact ((insertE_ok_perm hr).cons q).trans (List.Perm.swap _ _ _)

theorem sortItemsE_ok_perm {W : Type} :
    ∀ {l r : List (PyVal × W)}, sortItemsE l = .ok r → r.Perm l
  | [], r, h => by
    rw [sortItemsE] at h
    injection h with h
    rw [← h]
  | p :: xs, r, h => by
    rw [sortItemsE] at h
    cases hr : sortItemsE (W := W) xs with
    | error e => rw [hr] at h; exact absurd h (by simp [Bind.bind, Except.bind])
    | ok r' =>
      rw [hr] at h
      simp only [Bind.bind, Except.bind] at h
      exact (insertE_ok_perm h).trans ((sortItemsE_ok_perm hr).cons p)

theorem pyLt_isOk_cases {a b : PyVal} (h : exOk (pyLt a b) = true) :
    ((∃ m, a = PyVal.int m) ∧ (∃ n, b = PyVal.int n)) ∨
    ((∃ s, a = PyVal.str s) ∧ (∃ t, b = PyVal.str t)) := by
  cases a <;> cases b <;> simp_all [pyLt, exOk]

theorem pyLt_error_of_not_both {a b : PyVal}
    (h : ¬(((∃ m, a = PyVal.int m) ∧ (∃ n, b = PyVal.int n)) ∨
      ((∃ s, a = PyVal.str s) ∧ (∃ t, b = PyVal.str t)))) :
    exOk (pyLt a b) = false := by
  cases he : exOk (pyLt a b) with
  | false => rfl
  | true => exact absurd (pyLt_isOk_cases he) h

theorem insertE_ok_int {W : Type} {p : PyVal × W} {l : List (PyVal × W)}
    (hp : ∃ m, p.1 = PyVal.int m) (hl : ∀ q ∈ l, ∃ n, q.1 = PyVal.int n) :
    exOk (insertE p l) = true := by
  induction l with
  | nil => rfl
  | cons q xs ih =>
    obtain ⟨m, hm⟩ := hp
    obtain ⟨n, hn⟩ := hl q (by simp)
    rw [insertE, hm, hn]
    simp only [pyLt, Bind.bind, Except.bind]
    cases hmn : (decide (m < n)) with
    | true => simp [exOk]
    | false =>
      have hih := ih (fun q' hq' => hl q' (List.mem_cons_of_mem _ hq'))
      rw [if_neg (by simp)]
      cases he : insertE p xs with
      | ok r => simp [exOk]
      | error e => rw [he] at hih; simp [exOk] at hih

theorem insertE_ok_str {W : Type} {p : PyVal × W} {l : List (PyVal × W)}
    (hp : ∃ s, p.1 = PyVal.str s) (hl : ∀ q ∈ l, ∃ t, q.1 = PyVal.str t) :
    exOk (insertE p l) = true := by
  induction l with
  | nil => rfl
  | cons q xs ih =>
    obtain ⟨s, hs⟩ := hp
    obtain ⟨t, ht⟩ := hl q (by simp)
    rw [insertE, hs, ht]
    simp only [pyLt, Bind.bind, Except.bind]
    cases hst : (PyVal.lexLt s.data t.data) with
    | true => simp [exOk]
    | false =>
      have hih := ih (fun q' hq' => hl q' (List.mem_cons_of_mem _ hq'))
      rw [if_neg (by simp)]
      cases he : insertE p xs with
      | ok r => simp [exOk]
      | error e => rw [he] at hih; simp [exOk] at hih

theorem sortItemsE_ok_of_int {W : Type} {l : List (PyVal × W)}
    (hl : ∀ q ∈ l, ∃ n, q.1 = PyVal.int n) : exOk (sortItemsE l) = true := by
  induction l with
  | nil => rfl
  | cons p xs ih =>
    rw [sortItemsE]
    have hih := ih (fun q hq => hl q (List.mem_cons_of_mem _ hq))
    cases he : sortItemsE (W := W) xs with
    | error e => rw [he] at hih; simp [exOk] at hih
    | ok r =>
      simp only [Bind.bind, Except.bind]
      exact insertE_ok_int (hl p (by simp))
        (fun q hq => hl q (List.mem_cons_of_mem _ ((sortItemsE_ok_perm he).mem_iff.mp hq)))

theorem sortItemsE_ok_of_str {W : Type} {l : List (PyVal × W)}
    (hl : ∀ q ∈ l, ∃ t, q.1 = PyVal.str t) : exOk (sortItemsE l) = true := by
  induction l with
  | nil => rfl
  | cons p xs ih =>
    rw [sortItemsE]
    have hih := ih (fun q hq => hl q (List.mem_cons_of_mem _ hq))
    cases he : sortItemsE (W := W) xs with
    | error e => rw [he] at hih; simp [exOk] at hih
    | ok r =>
      simp only [Bind.bind, Except.bind]
      exact insertE_ok_str (hl p (by simp))
        (fun q hq => hl q (List.mem_cons_of_mem _ ((sortItemsE_ok_perm he).mem_iff.mp hq)))

theorem sortItemsE_ok_of_homogeneous {W : Type} {l : List (PyVal × W)}
    (h : KindHomogeneous l) : exOk (sortItemsE l) = true := by
  rcases h with hlen | hint | hstr
  · cases l with
    | nil => rfl
    | cons p xs =>
      cases xs with
      | nil => rfl
      | cons q ys => simp at hlen
  · exact sortItemsE_ok_of_int hint
  · exact sortItemsE_ok_of_str hstr

theorem sortItemsE_error_of_not_homogeneous {W : Type} :
    ∀ {l : List (PyVal × W)}, ¬ KindHomogeneous l → exOk (sortItemsE l) = false
  | [], h => absurd (Or.inl (by simp)) h
  | p :: xs, h => by
    by_cases hxs : KindHomogeneous xs
    case neg =>
      have hih := sortItemsE_error_of_not_homogeneous hxs
      rw [sortItemsE]
      cases he : sortItemsE (W := W) xs with
      | error e => simp [Bind.bind, Except.bind, exOk]
      | ok r => rw [he] at hih; simp [exOk] at hih
    case pos =>
      have hok := sortItemsE_ok_of_homogeneous hxs
      rw [sortItemsE]
      cases he : sortItemsE (W := W) xs with
      | error e => rw [he] at hok; simp [exOk] at hok
      | ok r =>
        have hperm : r.Perm xs := sortItemsE_ok_perm he
        cases hr : r with
        | nil =>
          exfalso
          have hxnil : xs.length = 0 := by
            have hl := hperm.length_eq
            rw [hr] at hl
            exact hl.symm
          exact h (Or.inl (by
            cases xs with
            | nil => simp
            | cons a b => simp at hxnil))
        | cons q r' =>
          have hq : q ∈ xs := hperm.mem_iff.mp (by rw [hr]; simp)
          have herr : exOk (pyLt p.1 q.1) = false := by
            apply pyLt_error_of_not_both
            intro hc
            apply h
            rcases hc with ⟨⟨m, hm⟩, ⟨n, hn⟩⟩ | ⟨⟨s, hs⟩, ⟨t, ht⟩⟩
            · rcases hxs with hlen | hint | hstr
              · have hxq : xs = [q] := by
                  cases xs with
                  | nil => simp at hq
                  | cons a b =>
                    cases b with
                    | nil =>
                      rcases List.mem_singleton.mp hq with rfl
                      rfl
                    | cons a2 b2 => simp at hlen
                refine Or.inr (Or.inl ?_)
                intro q0 hq0
                rw [hxq] at hq0
                rcases List.mem_cons.mp hq0 with rfl | hq0'
                · exact ⟨m, hm⟩
                · rcases List.mem_singleton.mp hq0' with rfl
                  exact ⟨n, hn⟩
              · refine Or.inr (Or.inl ?_)
                intro q0 hq0
                rcases List.mem_cons.mp hq0 with rfl | hq0'
                · exact ⟨m, hm⟩
                · exact hint q0 hq0'
              · obtain ⟨t, ht⟩ := hstr q hq
                rw [ht] at hn
                exact absurd hn (by simp)
            · rcases hxs with hlen | hint | hstr
              · have hxq : xs = [q] := by
                  cases xs with
                  | nil => simp at hq
                  | cons a b =>
                    cases b with
                    | nil =>
                      rcases List.mem_singleton.mp hq with rfl
                      rfl
                    | cons a2 b2 => simp at hlen
                refine Or.inr (Or.inr ?_)
                intro q0 hq0
                rw [hxq] at hq0
                rcases List.mem_cons.mp hq0 with rfl | hq0'
                · exact ⟨s, hs⟩
                · rcases List.mem_singleton.mp hq0' with rfl
                  exact ⟨t, ht⟩
              · obtain ⟨n, hn⟩ := hint q hq
                rw [hn] at ht
                exact absurd ht (by simp)
              · refine Or.inr (Or.inr ?_)
                intro q0 hq0
                rcases List.mem_cons.mp hq0 with rfl | hq0'
                · exact ⟨s, hs⟩
                · exact hstr q0 hq0'
          simp only [Bind.bind, Except.bind]
          rw [insertE]
          cases hpq : pyLt p.1 q.1 with
          | error e => simp [Bind.bind, Except.bind, exOk]
          | ok b => rw [hpq] at herr; simp [exOk] at herr

theorem sortItemsE_isOk_iff {W : Type} {l : List (PyVal × W)} :
    exOk (sortItemsE l) = true ↔ KindHomogeneous l := by
  by_cases h : KindHomogeneous l
  · simp [sortItemsE_ok_of_homogeneous h, h]
  · simp [sortItemsE_error_of_not_homogeneous h, h]

namespace Identifier

theorem rank3Canon_mergeRanks3 {s1 s2 : Rank3Set}
    (h1 : Rank3Canon s1) (_h2 : Rank3Canon s2) : Rank3Canon (mergeRanks3 s1 s2) :=
  ⟨SMap.keySorted_mergeWith h1.1, SMap.mergeWith_ne_nil_left h1.2⟩

theorem rank2Canon_mergeRanks2 {m1 m2 : Rank2Map}
    (h1 : Rank2Canon m1) (h2 : Rank2Canon m2) : Rank2Canon (mergeRanks2 m1 m2) :=
  ⟨SMap.keySorted_mergeWith h1.1, SMap.mergeWith_ne_nil_left h1.2.1,
    SMap.forall_mem_mergeWith (fun _ _ hv1 hv2 => rank3Canon_mergeRanks3 hv1 hv2)
      h1.2.2 h2.2.2⟩

theorem rank1Canon_mergeRanks1 {m1 m2 : Rank1Map}
    (h1 : Rank1Canon m1) (h2 : Rank1Canon m2) : Rank1Canon (mergeRanks1 m1 m2) :=
  ⟨SMap.keySorted_mergeWith h1.1, SMap.mergeWith_ne_nil_left h1.2.1,
    SMap.forall_mem_mergeWith (fun _ _ hv1 hv2 => rank2Canon_mergeRanks2 hv1 hv2)
      h1.2.2 h2.2.2⟩

theorem canon_init (r1 r2 r3 : PyVal) : Canon (Identifier.init r1 r2 r3) := by
  refine ⟨?_, by simp [init], ?_⟩
  · simp [init, SMap.KeySorted]
  · intro p hp
    rcases List.mem_singleton.mp hp with rfl
    refine ⟨by simp [SMap.KeySorted], by simp, ?_⟩
    intro q hq
    rcases List.mem_singleton.mp hq with rfl
    exact ⟨by simp [SMap.KeySorted], by simp⟩

theorem canon_union {a b : Identifier} (ha : Canon a) (hb : Canon b) :
    Canon (a.union b) :=
  rank1Canon_mergeRanks1 ha hb

/-- Every identifier reachable through `__init__` and `__or__` is in
canonical representation. -/
theorem Reachable.canon {a : Identifier} (h : Reachable a) : Canon a := by
  induction h with
  | init r1 r2 r3 => exact canon_init r1 r2 r3
  | union h1 h2 ih1 ih2 => exact canon_union ih1 ih2

theorem mergeRanks3_comm {s1 s2 : Rank3Set}
    (h1 : Rank3Canon s1) (h2 : Rank3Canon s2) :
    mergeRanks3 s1 s2 = mergeRanks3 s2 s1 :=
  SMap.mergeWith_comm (P := fun _ => True) h1.1 h2.1
    (fun _ _ => trivial) (fun _ _ => trivial) (fun _ _ _ _ => rfl)

theorem mergeRanks2_comm {m1 m2 : Rank2Map}
    (h1 : Rank2Canon m1) (h2 : Rank2Canon m2) :
    mergeRanks2 m1 m2 = mergeRanks2 m2 m1 :=
  SMap.mergeWith_comm (P := Rank3Canon) h1.1 h2.1 h1.2.2 h2.2.2
    (fun _ _ hv1 hv2 => mergeRanks3_comm hv1 hv2)

theorem mergeRanks1_comm {m1 m2 : Rank1Map}
    (h1 : Rank1Canon m1) (h2 : Rank1Canon m2) :
    mergeRanks1 m1 m2 = mergeRanks1 m2 m1 :=
  SMap.mergeWith_comm (P := Rank2Canon) h1.1 h2.1 h1.2.2 h2.2.2
    (fun _ _ hv1 hv2 => mergeRanks2_comm hv1 hv2)

theorem union_comm {a b : Identifier} (ha : Canon a) (hb : Canon b) :
    a.union b = b.union a := by
  show Identifier.mk _ = Identifier.mk _
  rw [mergeRanks1_comm ha hb]

theorem mergeRanks3_assoc {s1 s2 s3 : Rank3Set}
    (h1 : Rank3Canon s1) (h2 : Rank3Canon s2) (h3 : Rank3Canon s3) :
    mergeRanks3 (mergeRanks3 s1 s2) s3 = mergeRanks3 s1 (mergeRanks3 s2 s3) :=
  SMap.mergeWith_assoc (P := fun _ => True) h1.1 h2.1 h3.1
    (fun _ _ => trivial) (fun _ _ => trivial) (fun _ _ => trivial)
    (fun _ _ _ _ _ _ => rfl)

theorem mergeRanks2_assoc {m1 m2 m3 : Rank2Map}
    (h1 : Rank2Canon m1) (h2 : Rank2Canon m2) (h3 : Rank2Canon m3) :
    mergeRanks2 (mergeRanks2 m1 m2) m3 = mergeRanks2 m1 (mergeRanks2 m2 m3) :=
  SMap.mergeWith_assoc (P := Rank3Canon) h1.1 h2.1 h3.1 h1.2.2 h2.2.2 h3.2.2
    (fun _ _ _ hv1 hv2 hv3 => mergeRanks3_assoc hv1 hv2 hv3)

theorem mergeRanks1_assoc {m1 m2 m3 : Rank1Map}
    (h1 : Rank1Canon m1) (h2 : Rank1Canon m2) (h3 : Rank1Canon m3) :
    mergeRanks1 (mergeRanks1 m1 m2) m3 = mergeRanks1 m1 (mergeRanks1 m2 m3) :=
  SMap.mergeWith_assoc (P := Rank2Canon) h1.1 h2.1 h3.1 h1.2.2 h2.2.2 h3.2.2
    (fun _ _ _ hv1 hv2 hv3 => mergeRanks2_assoc hv1 hv2 hv3)

theorem union_assoc {a b c : Identifier} (ha : Canon a) (hb : Canon b) (hc : Canon c) :
    (a.union b).union c = a.union (b.union c) := by
  show Identifier.mk (mergeRanks1 (mergeRanks1 a.rank1Map b.rank1Map) c.rank1Map)
    = Identifier.mk (mergeRanks1 a.rank1Map (mergeRanks1 b.rank1Map c.rank1Map))
  rw [mergeRanks1_assoc ha hb hc]

theorem mergeRanks3_idem {s : Rank3Set} (h : Rank3Canon s) :
    mergeRanks3 s s = s :=
  SMap.mergeWith_idem (P := fun _ => True) h.1 (fun _ _ => trivial) (fun _ _ => rfl)

theorem mergeRanks2_idem {m : Rank2Map} (h : Rank2Canon m) :
    mergeRanks2 m m = m :=
  SMap.mergeWith_idem (P := Rank3Canon) h.1 h.2.2
    (fun _ hv => mergeRanks3_idem hv)

theorem mergeRanks1_idem {m : Rank1Map} (h : Rank1Canon m) :
    mergeRanks1 m m = m :=
  SMap.mergeWith_idem (P := Rank2Canon) h.1 h.2.2
    (fun _ hv => mergeRanks2_idem hv)

theorem union_idem {a : Identifier} (ha : Canon a) : a.union a = a := by
  show Identifier.mk (mergeRanks1 a.rank1Map a.rank1Map) = a
  rw [mergeRanks1_idem ha]

/-- Membership in the component-triple list of a canonical tree is
exactly a three-level lookup path. -/
theorem mem_componentTriples {a : Identifier} {t : Triple} (ha : Canon a) :
    t ∈ a.componentTriples ↔
      ∃ m2 s3, SMap.slookup t.1 a.rank1Map = some m2 ∧
        SMap.slookup t.2.1 m2 = some s3 ∧ SMap.slookup t.2.2 s3 = some () := by
  obtain ⟨hs1, hne1, hv1⟩ := ha
  constructor
  · intro h
    rw [componentTriples] at h
    obtain ⟨p1, hp1, h⟩ := List.mem_flatMap.mp h
    obtain ⟨p2, hp2, h⟩ := List.mem_flatMap.mp h
    obtain ⟨p3, hp3, h⟩ := List.mem_map.mp h
    obtain ⟨hs2, hne2, hv2⟩ := hv1 p1 hp1
    obtain ⟨hs3, hne3⟩ := hv2 p2 hp2
    refine ⟨p1.2, p2.2, ?_, ?_, ?_⟩
    · rw [← h]
      exact SMap.slookup_of_mem hs1 hp1
    · rw [← h]
      exact SMap.slookup_of_mem hs2 hp2
    · rw [← h]
      exact SMap.slookup_of_mem hs3 hp3
  · rintro ⟨m2, s3, h1, h2, h3⟩
    rw [componentTriples]
    refine List.mem_flatMap.mpr ⟨(t.1, m2), SMap.mem_of_slookup h1, ?_⟩
    refine List.mem_flatMap.mpr ⟨(t.2.1, s3), SMap.mem_of_slookup h2, ?_⟩
    exact List.mem_map.mpr ⟨(t.2.2, ()), SMap.mem_of_slookup h3, rfl⟩

/-- Every canonical rank-2 subtree holds at least one lookup path. -/
theorem rank2Canon_witness {m2 : Rank2Map} (h : Rank2Canon m2) :
    ∃ k2 s3 k3, SMap.slookup k2 m2 = some s3 ∧ SMap.slookup k3 s3 = some () := by
  obtain ⟨hs2, hne2, hv2⟩ := h
  cases m2 with
  | nil => exact absurd rfl hne2
  | cons p xs =>
    obtain ⟨hs3, hne3⟩ := hv2 p (by simp)
    cases hq : p.2 with
    | nil => exact absurd hq hne3
    | cons q ys =>
      refine ⟨p.1, p.2, q.1, ?_, ?_⟩
      · exact SMap.slookup_of_mem hs2 (List.mem_cons_self _ _)
      · have hmem : (q.1, ()) ∈ p.2 := by
          rw [hq]
          exact List.mem_cons_self _ _
        exact SMap.slookup_of_mem hs3 hmem

/-- Two canonical identifiers with the same component-triple set are
structurally equal: the tree is exactly the canonical grouping of its
leaf triples. -/
theorem canon_eq_of_componentTriples {a b : Identifier} (ha : Canon a) (hb : Canon b)
    (h : ∀ t : Triple, t ∈ a.componentTriples ↔ t ∈ b.componentTriples) : a = b := by
  obtain ⟨hs1a, hne1a, hv1a⟩ := ha
  obtain ⟨hs1b, hne1b, hv1b⟩ := hb
  have hpath : ∀ k1 k2 k3,
      (∃ m2 s3, SMap.slookup k1 a.rank1Map = some m2 ∧
        SMap.slookup k2 m2 = some s3 ∧ SMap.slookup k3 s3 = some ()) ↔
      (∃ m2 s3, SMap.slookup k1 b.rank1Map = some m2 ∧
        SMap.slookup k2 m2 = some s3 ∧ SMap.slookup k3 s3 = some ()) := by
    intro k1 k2 k3
    have := h (k1, k2, k3)
    rwa [mem_componentTriples ⟨hs1a, hne1a, hv1a⟩,
      mem_componentTriples ⟨hs1b, hne1b, hv1b⟩] at this
  have hmap : a.rank1Map = b.rank1Map := by
    apply SMap.ext_lookup hs1a hs1b
    intro k1
    cases e1 : SMap.slookup k1 a.rank1Map with
    | none =>
      cases e2 : SMap.slookup k1 b.rank1Map with
      | none => rfl
      | some m2b =>
        exfalso
        obtain ⟨k2, s3, k3, h2, h3⟩ := rank2Canon_witness (hv1b _ (SMap.mem_of_slookup e2))
        obtain ⟨m2a, s3a, e1a, _, _⟩ := (hpath k1 k2 k3).mpr ⟨m2b, s3, e2, h2, h3⟩
        rw [e1] at e1a
        exact Option.noConfusion e1a
    | some m2a =>
      cases e2 : SMap.slookup k1 b.rank1Map with
      | none =>
        exfalso
        obtain ⟨k2, s3, k3, h2, h3⟩ := rank2Canon_witness (hv1a _ (SMap.mem_of_slookup e1))
        obtain ⟨m2b, s3b, e2b, _, _⟩ := (hpath k1 k2 k3).mp ⟨m2a, s3, e1, h2, h3⟩
        rw [e2] at e2b
        exact Option.noConfusion e2b
      | some m2b =>
        obtain ⟨hs2a, hne2a, hv2a⟩ := hv1a _ (SMap.mem_of_slookup e1)
        obtain ⟨hs2b, hne2b, hv2b⟩ := hv1b _ (SMap.mem_of_slookup e2)
        have hpath2 : ∀ k2 k3,
            (∃ s3, SMap.slookup k2 m2a = some s3 ∧ SMap.slookup k3 s3 = some ()) ↔
            (∃ s3, SMap.slookup k2 m2b = some s3 ∧ SMap.slookup k3 s3 = some ()) := by
          intro k2 k3
          constructor
          · rintro ⟨s3, h2, h3⟩
            obtain ⟨m2', s3', e2', h2', h3'⟩ := (hpath k1 k2 k3).mp ⟨m2a, s3, e1, h2, h3⟩
            rw [e2] at e2'
            cases e2'
            exact ⟨s3', h2', h3'⟩
          · rintro ⟨s3, h2, h3⟩
            obtain ⟨m2', s3', e1', h2', h3'⟩ := (hpath k1 k2 k3).mpr ⟨m2b, s3, e2, h2, h3⟩
            rw [e1] at e1'
            cases e1'
            exact ⟨s3', h2', h3'⟩
        congr 1
        apply SMap.ext_lookup hs2a hs2b
        intro k2
        cases f1 : SMap.slookup k2 m2a with
        | none =>
          cases f2 : SMap.slookup k2 m2b with
          | none => rfl
          | some s3b =>
            exfalso
            obtain ⟨hs3b, hne3b⟩ := hv2b _ (SMap.mem_of_slookup f2)
            cases hsb : s3b with
            | nil => exact absurd hsb hne3b
            | cons q ys =>
              have h3 : SMap.slookup q.1 s3b = some () :=
                SMap.slookup_of_mem hs3b (by rw [hsb]; simp)
              obtain ⟨s3', f1', _⟩ := (hpath2 k2 q.1).mpr ⟨s3b, f2, h3⟩
              rw [f1] at f1'
              exact Option.noConfusion f1'
        | some s3a =>
          cases f2 : SMap.slookup k2 m2b with
          | none =>
            exfalso
            obtain ⟨hs3a, hne3a⟩ := hv2a _ (SMap.mem_of_slookup f1)
            cases hsa : s3a with
            | nil => exact absurd hsa hne3a
            | cons q ys =>
              have h3 : SMap.slookup q.1 s3a = some () :=
                SMap.slookup_of_mem hs3a (by rw [hsa]; simp)
              obtain ⟨s3', f2', _⟩ := (hpath2 k2 q.1).mp ⟨s3a, f1, h3⟩
              rw [f2] at f2'
              exact Option.noConfusion f2'
          | some s3b =>
            obtain ⟨hs3a, hne3a⟩ := hv2a _ (SMap.mem_of_slookup f1)
            obtain ⟨hs3b, hne3b⟩ := hv2b _ (SMap.mem_of_slookup f2)
            congr 1
            apply SMap.ext_lookup hs3a hs3b
            intro k3
            have hiff : SMap.slookup k3 s3a = some () ↔ SMap.slookup k3 s3b = some () := by
              constructor
              · intro hx
                obtain ⟨s3', f2', h3'⟩ := (hpath2 k2 k3).mp ⟨s3a, f1, hx⟩
                rw [f2] at f2'
                cases f2'
                exact h3'
              · intro hx
                obtain ⟨s3', f1', h3'⟩ := (hpath2 k2 k3).mpr ⟨s3b, f2, hx⟩
                rw [f1] at f1'
                cases f1'
                exact h3'
            cases g1 : SMap.slookup k3 s3a with
            | none =>
              cases g2 : SMap.slookup k3 s3b with
              | none => rfl
              | some u =>
                exfalso
                have h2' := hiff.mpr g2
                rw [g1] at h2'
                exact Option.noConfusion h2'
            | some u =>
              exact (hiff.mp g1).symm
  exact congrArg Identifier.mk hmap

/-- Components of a union: the leaf-triple set of `A | B` is the union
of the leaf-triple sets, with shared rank-1/rank-2 keys merged
recursively and rank-3 sets unioned at the deepest shared level. -/
theorem mem_componentTriples_union {a b : Identifier} (ha : Canon a) (hb : Canon b)
    (t : Triple) :
    t ∈ (a.union b).componentTriples ↔
      (t ∈ a.componentTriples ∨ t ∈ b.componentTriples) := by
  rw [mem_componentTriples (canon_union ha hb), mem_componentTriples ha,
    mem_componentTriples hb]
  have hl1 : SMap.slookup t.1 (a.union b).rank1Map
      = SMap.combineOpt mergeRanks2 (SMap.slookup t.1 a.rank1Map)
          (SMap.slookup t.1 b.rank1Map) :=
    SMap.slookup_mergeWith ha.1 hb.1 t.1
  rw [hl1]
  cases e1 : SMap.slookup t.1 a.rank1Map with
  | none =>
    cases e2 : SMap.slookup t.1 b.rank1Map with
    | none => simp [SMap.combineOpt]
    | some m2b => simp [SMap.combineOpt]
  | some m2a =>
    cases e2 : SMap.slookup t.1 b.rank1Map with
    | none => simp [SMap.combineOpt]
    | some m2b =>
      have h2a : Rank2Canon m2a := ha.2.2 _ (SMap.mem_of_slookup e1)
      have h2b : Rank2Canon m2b := hb.2.2 _ (SMap.mem_of_slookup e2)
      have hl2 : SMap.slookup t.2.1 (mergeRanks2 m2a m2b)
          = SMap.combineOpt mergeRanks3 (SMap.slookup t.2.1 m2a)
              (SMap.slookup t.2.1 m2b) :=
        SMap.slookup_mergeWith h2a.1 h2b.1 t.2.1
      simp only [SMap.combineOpt, Option.some.injEq]
      constructor
      · rintro ⟨m2, s3, hm2, hpath⟩
        rw [← hm2, hl2] at hpath
        obtain ⟨hs3, hrest⟩ := hpath
        cases f1 : SMap.slookup t.2.1 m2a with
        | none =>
          cases f2 : SMap.slookup t.2.1 m2b with
          | none => rw [f1, f2] at hs3; exact absurd hs3 (by simp [SMap.combineOpt])
          | some s3b =>
            rw [f1, f2] at hs3
            simp only [SMap.combineOpt, Option.some.injEq] at hs3
            exact Or.inr ⟨m2b, s3b, rfl, f2, by rw [← hs3] at hrest; exact hrest⟩
        | some s3a =>
          cases f2 : SMap.slookup t.2.1 m2b with
          | none =>
            rw [f1, f2] at hs3
            simp only [SMap.combineOpt, Option.some.injEq] at hs3
            exact Or.inl ⟨m2a, s3a, rfl, f1, by rw [← hs3] at hrest; exact hrest⟩
          | some s3b =>
            rw [f1, f2] at hs3
            simp only [SMap.combineOpt, Option.some.injEq] at hs3
            have h3a : Rank3Canon s3a := h2a.2.2 _ (SMap.mem_of_slookup f1)
            have h3b : Rank3Canon s3b := h2b.2.2 _ (SMap.mem_of_slookup f2)
            have hl3 : SMap.slookup t.2.2 (mergeRanks3 s3a s3b)
                = SMap.combineOpt (fun _ _ => ()) (SMap.slookup t.2.2 s3a)
                    (SMap.slookup t.2.2 s3b) :=
              SMap.slookup_mergeWith h3a.1 h3b.1 t.2.2
            rw [← hs3, hl3] at hrest
            cases g1 : SMap.slookup t.2.2 s3a with
            | none =>
              cases g2 : SMap.slookup t.2.2 s3b with
              | none =>
                rw [g1, g2] at hrest
                exact absurd hrest (by simp [SMap.combineOpt])
              | some u => exact Or.inr ⟨m2b, s3b, rfl, f2, by rw [g2]⟩
            | some u => exact Or.inl ⟨m2a, s3a, rfl, f1, by rw [g1]⟩
      · rintro (⟨m2, s3, hm2, hs3, hrest⟩ | ⟨m2, s3, hm2, hs3, hrest⟩)
        · refine ⟨mergeRanks2 m2a m2b, ?_⟩
          rw [← hm2] at hs3
          rw [hl2, hs3]
          cases f2 : SMap.slookup t.2.1 m2b with
          | none => exact ⟨s3, rfl, by simp [SMap.combineOpt], hrest⟩
          | some s3b =>
            have h3a : Rank3Canon s3 := h2a.2.2 _ (SMap.mem_of_slookup hs3)
            have h3b : Rank3Canon s3b := h2b.2.2 _ (SMap.mem_of_slookup f2)
            refine ⟨mergeRanks3 s3 s3b, rfl, by simp [SMap.combineOpt], ?_⟩
            rw [mergeRanks3, SMap.slookup_mergeWith h3a.1 h3b.1 t.2.2, hrest]
            cases g2 : SMap.slookup t.2.2 s3b <;> simp [SMap.combineOpt]
        · refine ⟨mergeRanks2 m2a m2b, ?_⟩
          rw [← hm2] at hs3
          rw [hl2, hs3]
          cases f1 : SMap.slookup t.2.1 m2a with
          | none => exact ⟨s3, rfl, by simp [SMap.combineOpt], hrest⟩
          | some s3a =>
            have h3b : Rank3Canon s3 := h2b.2.2 _ (SMap.mem_of_slookup hs3)
            have h3a : Rank3Canon s3a := h2a.2.2 _ (SMap.mem_of_slookup f1)
            refine ⟨mergeRanks3 s3a s3, rfl, by simp [SMap.combineOpt], ?_⟩
            rw [mergeRanks3, SMap.slookup_mergeWith h3a.1 h3b.1 t.2.2, hrest]
            cases g1 : SMap.slookup t.2.2 s3a <;> simp [SMap.combineOpt]

end Identifier

theorem exOk_bind {A B : Type} {x : Except PyErr A} {f : A → Except PyErr B} :
    exOk (x >>= f) = true ↔ ∃ v, x = .ok v ∧ exOk (f v) = true := by
  cases x <;> simp [Bind.bind, Except.bind, exOk]

theorem mapME_ok_forall₂ {A B : Type} {f : A → Except PyErr B} :
    ∀ {l : List A} {r : List B}, mapME f l = .ok r →
      List.Forall₂ (fun x y => f x = .ok y) l r
  | [], r, h => by
    rw [mapME] at h
    injection h with h
    rw [← h]
    exact List.Forall₂.nil
  | x :: xs, r, h => by
    rw [mapME] at h
    cases hx : f x with
    | error e => rw [hx] at h; exact absurd h (by simp [Bind.bind, Except.bind])
    | ok y =>
      rw [hx] at h
      simp only [Bind.bind, Except.bind] at h
      cases hxs : mapME f xs with
      | error e => rw [hxs] at h; exact absurd h (by simp)
      | ok ys =>
        rw [hxs] at h
        simp only [pure, Except.pure, Except.ok.injEq] at h
        rw [← h]
        exact List.Forall₂.cons hx (mapME_ok_forall₂ hxs)

theorem exOk_mapME {A B : Type} {f : A → Except PyErr B} :
    ∀ {l : List A}, exOk (mapME f l) = true ↔ ∀ x ∈ l, exOk (f x) = true
  | [] => by simp [mapME, exOk]
  | x :: xs => by
    rw [mapME]
    constructor
    · intro h
      rw [show (do
          let y ← f x
          let ys ← mapME f xs
          pure (y :: ys) : Except PyErr (List B))
        = (f x >>= fun y => mapME f xs >>= fun ys => pure (y :: ys)) from rfl] at h
      rw [exOk_bind] at h
      obtain ⟨y, hy, h⟩ := h
      rw [exOk_bind] at h
      obtain ⟨ys, hys, _⟩ := h
      intro z hz
      rcases List.mem_cons.mp hz with rfl | hz'
      · rw [hy]; rfl
      · exact (exOk_mapME (l := xs)).mp (by rw [hys]; rfl) z hz'
    · intro h
      have hx := h x (by simp)
      cases hfx : f x with
      | error e => rw [hfx] at hx; simp [exOk] at hx
      | ok y =>
        have hxs : exOk (mapME f xs) = true :=
          (exOk_mapME (l := xs)).mpr (fun z hz => h z (by simp [hz]))
        cases hms : mapME f xs with
        | error e => rw [hms] at hxs; simp [exOk] at hxs
        | ok ys => simp [Bind.bind, Except.bind, hfx, hms, exOk, pure, Except.pure]

theorem flatten_perm_of_forall₂ {A : Type} :
    ∀ {L1 L2 : List (List A)}, List.Forall₂ List.Perm L1 L2 →
      L1.flatten.Perm L2.flatten
  | _, _, List.Forall₂.nil => List.Perm.refl _
  | _, _, List.Forall₂.cons h hs => by
    simp only [List.flatten_cons]
    exact h.append (flatten_perm_of_forall₂ hs)

theorem exOk_bind_pure {A B : Type} {x : Except PyErr A} {g : A → B} :
    exOk (x >>= fun v => pure (g v)) = exOk x := by
  cases x <;> rfl

namespace Identifier

theorem componentTriples_eq_flatMap (a : Identifier) :
    a.componentTriples = a.rank1Map.flatMap treeRows := rfl

theorem sorted_row_perm {k1 k2 : PyVal} {s3 : Rank3Set} {w : List Triple}
    (h : (do
      let l3 ← sortItemsE s3
      pure (l3.map fun p3 => (k1, k2, p3.1)) : Except PyErr (List Triple)) = .ok w) :
    w.Perm (s3.map fun p3 => (k1, k2, p3.1)) := by
  cases h3 : sortItemsE s3 with
  | error e => rw [h3] at h; exact absurd h (by simp [Bind.bind, Except.bind])
  | ok l3 =>
    rw [h3] at h
    simp only [Bind.bind, Except.bind, pure, Except.pure, Except.ok.injEq] at h
    rw [← h]
    exact (sortItemsE_ok_perm h3).map _

theorem sorted_tree_perm {p1 : PyVal × Rank2Map} {w : List Triple}
    (h : (do
      let l2 ← sortItemsE p1.2
      let parts2 ← mapME (fun p2 => do
        let l3 ← sortItemsE p2.2
        pure (l3.map fun p3 => (p1.1, p2.1, p3.1))) l2
      pure parts2.flatten : Except PyErr (List Triple)) = .ok w) :
    w.Perm (treeRows p1) := by
  cases h2 : sortItemsE p1.2 with
  | error e => rw [h2] at h; exact absurd h (by simp [Bind.bind, Except.bind])
  | ok l2 =>
    rw [h2] at h
    replace h : (mapME (fun p2 => do
        let l3 ← sortItemsE p2.2
        pure (l3.map fun p3 => (p1.1, p2.1, p3.1))) l2 >>= fun parts2 =>
          pure parts2.flatten) = .ok w := h
    cases hm : mapME (fun p2 => do
        let l3 ← sortItemsE p2.2
        pure (l3.map fun p3 => (p1.1, p2.1, p3.1))) l2 with
    | error e => rw [hm] at h; exact absurd h (by simp [Bind.bind, Except.bind])
    | ok parts2 =>
      rw [hm] at h
      replace h : (Except.ok parts2.flatten : Except PyErr (List Triple)) = .ok w := h
      injection h with h
      have hf2 := mapME_ok_forall₂ hm
      have hperm2 : List.Forall₂ List.Perm parts2 (l2.map (rowOf p1.1)) := by
        rw [List.forall₂_map_right_iff]
        exact hf2.flip.imp fun _ _ hy => sorted_row_perm hy
      rw [← h]
      have t1 := flatten_perm_of_forall₂ hperm2
      rw [← List.flatMap_def] at t1
      exact t1.trans ((sortItemsE_ok_perm h2).flatMap_right _)

theorem sortedComponents_ok_perm {a : Identifier} {l : List Triple}
    (h : a.sortedComponents = .ok l) : l.Perm a.componentTriples := by
  rw [sortedComponents] at h
  cases h1 : sortItemsE a.rank1Map with
  | error e => rw [h1] at h; exact absurd h (by simp [Bind.bind, Except.bind])
  | ok l1 =>
    rw [h1] at h
    replace h : (mapME (fun p1 => do
        let l2 ← sortItemsE p1.2
        let parts2 ← mapME (fun p2 => do
          let l3 ← sortItemsE p2.2
          pure (l3.map fun p3 => (p1.1, p2.1, p3.1))) l2
        pure parts2.flatten) l1 >>= fun parts =>
          pure parts.flatten) = .ok l := h
    cases hm : mapME (fun p1 => do
        let l2 ← sortItemsE p1.2
        let parts2 ← mapME (fun p2 => do
          let l3 ← sortItemsE p2.2
          pure (l3.map fun p3 => (p1.1, p2.1, p3.1))) l2
        pure parts2.flatten) l1 with
    | error e => rw [hm] at h; exact absurd h (by simp [Bind.bind, Except.bind])
    | ok parts =>
      rw [hm] at h
      replace h : (Except.ok parts.flatten : Except PyErr (List Triple)) = .ok l := h
      injection h with h
      have hf1 := mapME_ok_forall₂ hm
      have hperm1 : List.Forall₂ List.Perm parts (l1.map treeRows) := by
        rw [List.forall₂_map_right_iff]
        exact hf1.flip.imp fun _ _ hy => sorted_tree_perm hy
      rw [← h, componentTriples_eq_flatMap]
      have t1 := flatten_perm_of_forall₂ hperm1
      rw [← List.flatMap_def] at t1
      exact t1.trans ((sortItemsE_ok_perm h1).flatMap_right _)

theorem exOk_row {k1 k2 : PyVal} {s3 : Rank3Set} :
    exOk (do
      let l3 ← sortItemsE s3
      pure (l3.map fun p3 => (k1, k2, p3.1)) : Except PyErr (List Triple)) = true
      ↔ KindHomogeneous s3 := by
  rw [show (do
      let l3 ← sortItemsE s3
      pure (l3.map fun p3 => (k1, k2, p3.1)) : Except PyErr (List Triple))
    = (sortItemsE s3 >>= fun l3 => pure (l3.map fun p3 => (k1, k2, p3.1))) from rfl]
  rw [exOk_bind_pure]
  exact sortItemsE_isOk_iff

theorem exOk_tree {p1 : PyVal × Rank2Map} :
    exOk (do
      let l2 ← sortItemsE p1.2
      let parts2 ← mapME (fun p2 => do
        let l3 ← sortItemsE p2.2
        pure (l3.map fun p3 => (p1.1, p2.1, p3.1))) l2
      pure parts2.flatten : Except PyErr (List Triple)) = true
      ↔ (KindHomogeneous p1.2 ∧ ∀ p2 ∈ p1.2, KindHomogeneous p2.2) := by
  rw [show (do
      let l2 ← sortItemsE p1.2
      let parts2 ← mapME (fun p2 => do
        let l3 ← sortItemsE p2.2
        pure (l3.map fun p3 => (p1.1, p2.1, p3.1))) l2
      pure parts2.flatten : Except PyErr (List Triple))
    = (sortItemsE p1.2 >>= fun l2 =>
        mapME (fun p2 => do
          let l3 ← sortItemsE p2.2
          pure (l3.map fun p3 => (p1.1, p2.1, p3.1))) l2 >>= fun parts2 =>
            pure parts2.flatten) from rfl]
  constructor
  · intro h
    obtain ⟨l2, hl2, h⟩ := exOk_bind.mp h
    rw [exOk_bind_pure, exOk_mapME] at h
    have hperm := sortItemsE_ok_perm hl2
    refine ⟨sortItemsE_isOk_iff.mp (by rw [hl2]; rfl), ?_⟩
    intro p2 hp2
    exact exOk_row.mp (h p2 (hperm.mem_iff.mpr hp2))
  · rintro ⟨hkh, hall⟩
    have hok := sortItemsE_isOk_iff.mpr hkh
    cases hl2 : sortItemsE p1.2 with
    | error e => rw [hl2] at hok; simp [exOk] at hok
    | ok l2 =>
      apply exOk_bind.mpr
      refine ⟨l2, rfl, ?_⟩
      rw [exOk_bind_pure, exOk_mapME]
      intro p2 hp2
      exact exOk_row.mpr (hall p2 ((sortItemsE_ok_perm hl2).mem_iff.mp hp2))

theorem sortedComponents_isOk_iff {a : Identifier} :
    exOk a.sortedComponents = true ↔ KindsOk a := by
  rw [sortedComponents]
  rw [show (do
      let l1 ← sortItemsE a.rank1Map
      let parts ← mapME (fun p1 => do
        let l2 ← sortItemsE p1.2
        let parts2 ← mapME (fun p2 => do
          let l3 ← sortItemsE p2.2
          pure (l3.map fun p3 => (p1.1, p2.1, p3.1))) l2
        pure parts2.flatten) l1
      pure parts.flatten : Except PyErr (List Triple))
    = (sortItemsE a.rank1Map >>= fun l1 =>
        mapME (fun p1 => do
          let l2 ← sortItemsE p1.2
          let parts2 ← mapME (fun p2 => do
            let l3 ← sortItemsE p2.2
            pure (l3.map fun p3 => (p1.1, p2.1, p3.1))) l2
          pure parts2.flatten) l1 >>= fun parts =>
            pure parts.flatten) from rfl]
  constructor
  · intro h
    obtain ⟨l1, hl1, h⟩ := exOk_bind.mp h
    rw [exOk_bind_pure, exOk_mapME] at h
    have hperm := sortItemsE_ok_perm hl1
    refine ⟨sortItemsE_isOk_iff.mp (by rw [hl1]; rfl), ?_⟩
    intro p1 hp1
    exact exOk_tree.mp (h p1 (hperm.mem_iff.mpr hp1))
  · rintro ⟨hkh, hall⟩
    have hok := sortItemsE_isOk_iff.mpr hkh
    cases hl1 : sortItemsE a.rank1Map with
    | error e => rw [hl1] at hok; simp [exOk] at hok
    | ok l1 =>
      apply exOk_bind.mpr
      refine ⟨l1, rfl, ?_⟩
      rw [exOk_bind_pure, exOk_mapME]
      intro p1 hp1
      exact exOk_tree.mpr (hall p1 ((sortItemsE_ok_perm hl1).mem_iff.mp hp1))

end Identifier

theorem perm_all_eq {A : Type} {l1 l2 : List A} (h : l1.Perm l2) (f : A → Bool) :
    l1.all f = l2.all f := by
  rw [List.all_eq, List.all_eq]
  exact decide_eq_decide.mpr
    ⟨fun h1 x hx => h1 x (h.mem_iff.mpr hx), fun h1 x hx => h1 x (h.mem_iff.mp hx)⟩

namespace Identifier

theorem rank_1_singleton {k1 : PyVal} {m2 : Rank2Map} {a : Identifier}
    (hm : a.rank1Map = [(k1, m2)]) : a.rank_1 = .ok k1 := by
  simp [rank_1, hm]

theorem rank_1_multi {a : Identifier} (h : 1 < a.rank1Map.length) :
    a.rank_1 = .error .composite := by
  rw [rank_1, if_pos h]

theorem rank_1_error_composite {a : Identifier} {e : PyErr}
    (h : a.rank_1 = .error e) : e = .composite := by
  rw [rank_1] at h
  split at h
  · injection h with h
    exact h.symm
  · split at h
    · exact absurd h (by simp)
    · injection h with h
      exact h.symm

theorem rank_2_singleton {k1 k2 : PyVal} {s3 : Rank3Set} {a : Identifier}
    (hm : a.rank1Map = [(k1, [(k2, s3)])]) : a.rank_2 = .ok k2 := by
  rw [rank_2, rank_1_singleton hm, hm]
  simp [Bind.bind, Except.bind, SMap.slookup]

theorem rank_2_multi2 {k1 : PyVal} {m2 : Rank2Map} {a : Identifier}
    (hm : a.rank1Map = [(k1, m2)]) (h : 1 < m2.length) :
    a.rank_2 = .error .composite := by
  rw [rank_2, rank_1_singleton hm, hm]
  simp [Bind.bind, Except.bind, SMap.slookup, if_pos h]

theorem rank_2_of_rank_1_error {a : Identifier} {e : PyErr}
    (h : a.rank_1 = .error e) : a.rank_2 = .error e := by
  rw [rank_2, h]
  rfl

theorem rank_2_error_composite {a : Identifier} {e : PyErr}
    (h : a.rank_2 = .error e) : e = .composite := by
  rw [rank_2] at h
  cases h1 : a.rank_1 with
  | error e1 =>
    rw [h1] at h
    replace h : (Except.error e1 : Except PyErr PyVal) = .error e := h
    injection h with h
    rw [← h]
    exact rank_1_error_composite h1
  | ok k1 =>
    rw [h1] at h
    replace h : (match SMap.slookup k1 a.rank1Map with
      | some m2 =>
        if 1 < m2.length then (.error .composite : Except PyErr PyVal)
        else
          match m2.head? with
          | some p => .ok p.1
          | Option.none => .error .composite
      | Option.none => .error .composite) = .error e := h
    split at h
    · split at h
      · injection h with h
        exact h.symm
      · split at h
        · exact absurd h (by simp)
        · injection h with h
          exact h.symm
    · injection h with h
      exact h.symm

theorem rank_3_singleton {k1 k2 k3 : PyVal} {a : Identifier}
    (hm : a.rank1Map = [(k1, [(k2, [(k3, ())])])]) : a.rank_3 = .ok k3 := by
  rw [rank_3, rank_1_singleton hm, rank_2_singleton hm, hm]
  simp [Bind.bind, Except.bind, SMap.slookup]

theorem rank_3_multi3 {k1 k2 : PyVal} {s3 : Rank3Set} {a : Identifier}
    (hm : a.rank1Map = [(k1, [(k2, s3)])]) (h : 1 < s3.length) :
    a.rank_3 = .error .composite := by
  rw [rank_3, rank_1_singleton hm, rank_2_singleton hm, hm]
  simp [Bind.bind, Except.bind, SMap.slookup, if_pos h]

theorem rank_3_of_rank_2_error {a : Identifier} {e : PyErr}
    (h : a.rank_2 = .error e) : a.rank_3 = .error e := by
  rw [rank_3, h]
  cases h1 : a.rank_1 with
  | error e1 =>
    have h2' := rank_2_of_rank_1_error h1
    rw [h2'] at h
    injection h with h
    rw [← h]
    rfl
  | ok k1 => rfl

theorem rank_3_error_composite {a : Identifier} {e : PyErr}
    (h : a.rank_3 = .error e) : e = .composite := by
  rw [rank_3] at h
  cases h1 : a.rank_1 with
  | error e1 =>
    rw [h1] at h
    replace h : (Except.error e1 : Except PyErr PyVal) = .error e := h
    injection h with h
    rw [← h]
    exact rank_1_error_composite h1
  | ok k1 =>
    rw [h1] at h
    cases h2 : a.rank_2 with
    | error e2 =>
      rw [h2] at h
      replace h : (Except.error e2 : Except PyErr PyVal) = .error e := h
      injection h with h
      rw [← h]
      exact rank_2_error_composite h2
    | ok k2 =>
      rw [h2] at h
      replace h : (match SMap.slookup k1 a.rank1Map with
        | some m2 =>
          match SMap.slookup k2 m2 with
          | some s3 =>
            if 1 < s3.length then (.error .composite : Except PyErr PyVal)
            else
              match s3.head? with
              | some p => .ok p.1
              | Option.none => .error .composite
          | Option.none => .error .composite
        | Option.none => .error .composite) = .error e := h
      split at h
      · split at h
        · split at h
          · injection h with h
            exact h.symm
          · split at h
            · exact absurd h (by simp)
            · injection h with h
              exact h.symm
        · injection h with h
          exact h.symm
      · injection h with h
        exact h.symm

theorem tuple_singleton {k1 k2 k3 : PyVal} {a : Identifier}
    (hm : a.rank1Map = [(k1, [(k2, [(k3, ())])])]) :
    a.tuple = .ok (k1, k2, k3) := by
  rw [tuple, rank_1_singleton hm, rank_2_singleton hm, rank_3_singleton hm]
  rfl

end Identifier

theorem slookup_singleton {V : Type} (k : PyVal) (v : V) :
    SMap.slookup k [(k, v)] = some v := by
  simp [SMap.slookup]

namespace Identifier

theorem treeRows_ne_nil {p1 : PyVal × Rank2Map} (h : Rank2Canon p1.2) :
    treeRows p1 ≠ [] := by
  obtain ⟨hs2, hne2, hv2⟩ := h
  apply List.ne_nil_of_length_pos
  cases hm : p1.2 with
  | nil => exact absurd hm hne2
  | cons q ys =>
    have hq : q.2 ≠ [] := (hv2 q (by rw [hm]; simp)).2
    have hlen : 0 < q.2.length := List.length_pos.mpr hq
    rw [treeRows, hm, List.flatMap_cons, List.length_append, rowOf, List.length_map]
    omega

theorem componentTriples_ne_nil {a : Identifier} (ha : Canon a) :
    a.componentTriples ≠ [] := by
  obtain ⟨hs1, hne1, hv1⟩ := ha
  apply List.ne_nil_of_length_pos
  cases hm : a.rank1Map with
  | nil => exact absurd hm hne1
  | cons p xs =>
    have hp := List.length_pos.mpr (treeRows_ne_nil (hv1 p (by rw [hm]; simp)))
    rw [componentTriples_eq_flatMap, hm, List.flatMap_cons, List.length_append]
    omega

theorem componentTriples_length_one_iff {a : Identifier} (ha : Canon a) :
    a.componentTriples.length = 1 ↔
      ∃ k1 k2 k3, a.rank1Map = [(k1, [(k2, [(k3, ())])])] := by
  obtain ⟨hs1, hne1, hv1⟩ := ha
  constructor
  · intro h
    cases hm : a.rank1Map with
    | nil => exact absurd hm hne1
    | cons p xs =>
      rw [componentTriples_eq_flatMap, hm, List.flatMap_cons, List.length_append] at h
      cases xs with
      | cons q ys =>
        exfalso
        have hp := List.length_pos.mpr (treeRows_ne_nil (hv1 p (by rw [hm]; simp)))
        have hq := List.length_pos.mpr (treeRows_ne_nil (hv1 q (by rw [hm]; simp)))
        rw [List.flatMap_cons, List.length_append] at h
        omega
      | nil =>
        obtain ⟨k1, m2⟩ := p
        simp only [List.flatMap_nil, List.length_nil] at h
        obtain ⟨hs2, hne2, hv2⟩ := hv1 (k1, m2) (by rw [hm]; simp)
        simp only at hs2 hne2 hv2
        cases hm2 : m2 with
        | nil => exact absurd hm2 hne2
        | cons q ys =>
          obtain ⟨k2, s3⟩ := q
          rw [treeRows] at h
          simp only at h
          rw [hm2, List.flatMap_cons] at h
          cases ys with
          | cons r zs =>
            exfalso
            have h3a : s3 ≠ [] := (hv2 (k2, s3) (by rw [hm2]; simp)).2
            have h3b : r.2 ≠ [] := (hv2 r (by rw [hm2]; simp)).2
            have l3a := List.length_pos.mpr h3a
            have l3b := List.length_pos.mpr h3b
            rw [List.length_append, List.flatMap_cons, List.length_append] at h
            simp only [rowOf, List.length_map] at h
            omega
          | nil =>
            simp only [List.flatMap_nil, List.append_nil, rowOf, List.length_map] at h
            cases hm3 : s3 with
            | nil =>
              exfalso
              exact (hv2 (k2, s3) (by rw [hm2]; simp)).2 hm3
            | cons r zs =>
              obtain ⟨k3, u⟩ := r
              cases u
              cases zs with
              | cons r2 z2 =>
                exfalso
                rw [hm3] at h
                simp at h
              | nil =>
                exact ⟨k1, k2, k3, rfl⟩
  · rintro ⟨k1, k2, k3, hm⟩
    rw [componentTriples_eq_flatMap, hm]
    rfl

theorem rank_1_ok_shape {a : Identifier} (ha : Canon a) {v : PyVal}
    (h : a.rank_1 = .ok v) : ∃ m2, a.rank1Map = [(v, m2)] := by
  rw [rank_1] at h
  split at h
  · exact absurd h (by simp)
  · rename_i hlen
    cases hm : a.rank1Map with
    | nil => exact absurd hm ha.2.1
    | cons p xs =>
      cases xs with
      | cons q ys => rw [hm] at hlen; simp at hlen
      | nil =>
        rw [hm] at h
        simp only [List.head?] at h
        injection h with h
        exact ⟨p.2, by rw [← h]⟩

theorem rank_2_ok_shape {a : Identifier} (ha : Canon a) {v : PyVal}
    (h : a.rank_2 = .ok v) : ∃ k1 s3, a.rank1Map = [(k1, [(v, s3)])] := by
  cases h1 : a.rank_1 with
  | error e =>
    rw [rank_2_of_rank_1_error h1] at h
    exact absurd h (by simp)
  | ok k1 =>
    obtain ⟨m2, hm⟩ := rank_1_ok_shape ha h1
    have hmem : ((k1, m2) : PyVal × Rank2Map) ∈ a.rank1Map := by rw [hm]; simp
    obtain ⟨hs2, hne2, hv2⟩ := ha.2.2 _ hmem
    rw [rank_2, h1] at h
    replace h : (match SMap.slookup k1 a.rank1Map with
      | some m2 =>
        if 1 < m2.length then (.error .composite : Except PyErr PyVal)
        else
          match m2.head? with
          | some p => .ok p.1
          | Option.none => .error .composite
      | Option.none => .error .composite) = .ok v := h
    rw [hm, slookup_singleton] at h
    replace h : (if 1 < m2.length then (.error .composite : Except PyErr PyVal)
      else
        match m2.head? with
        | some p => .ok p.1
        | Option.none => .error .composite) = .ok v := h
    cases hm2 : m2 with
    | nil => exact absurd hm2 hne2
    | cons q ys =>
      rw [hm2] at h
      cases ys with
      | cons r zs =>
        rw [if_pos (by simp)] at h
        exact absurd h (by simp)
      | nil =>
        rw [if_neg (by simp)] at h
        replace h : (Except.ok q.1 : Except PyErr PyVal) = .ok v := h
        injection h with h
        exact ⟨k1, q.2, by rw [hm, hm2, ← h]⟩

theorem rank_3_ok_shape {a : Identifier} (ha : Canon a) {v : PyVal}
    (h : a.rank_3 = .ok v) : ∃ k1 k2, a.rank1Map = [(k1, [(k2, [(v, ())])])] := by
  cases h1 : a.rank_1 with
  | error e =>
    have h2 := rank_2_of_rank_1_error h1
    rw [rank_3_of_rank_2_error h2] at h
    exact absurd h (by simp)
  | ok k1 =>
    cases h2 : a.rank_2 with
    | error e =>
      rw [rank_3_of_rank_2_error h2] at h
      exact absurd h (by simp)
    | ok k2 =>
      obtain ⟨k1', s3, hm⟩ := rank_2_ok_shape ha h2
      have hk1 : k1' = k1 := by
        have := rank_1_singleton hm
        rw [h1] at this
        injection this with this
        exact this.symm
      subst hk1
      have hmem : ((k1', [(k2, s3)]) : PyVal × Rank2Map) ∈ a.rank1Map := by rw [hm]; simp
      obtain ⟨hs2, hne2, hv2⟩ := ha.2.2 _ hmem
      have h3c : Rank3Canon s3 := by
        apply hv2 (k2, s3)
        simp
      obtain ⟨hs3, hne3⟩ := h3c
      rw [rank_3, h1, h2] at h
      replace h : (match SMap.slookup k1' a.rank1Map with
        | some m2 =>
          match SMap.slookup k2 m2 with
          | some s3 =>
            if 1 < s3.length then (.error .composite : Except PyErr PyVal)
            else
              match s3.head? with
              | some p => .ok p.1
              | Option.none => .error .composite
          | Option.none => .error .composite
        | Option.none => .error .composite) = .ok v := h
      rw [hm, slookup_singleton] at h
      replace h : (match SMap.slookup k2 [(k2, s3)] with
        | some s3 =>
          if 1 < s3.length then (.error .composite : Except PyErr PyVal)
          else
            match s3.head? with
            | some p => .ok p.1
            | Option.none => .error .composite
        | Option.none => .error .composite) = .ok v := h
      rw [slookup_singleton] at h
      replace h : (if 1 < s3.length then (.error .composite : Except PyErr PyVal)
        else
          match s3.head? with
          | some p => .ok p.1
          | Option.none => .error .composite) = .ok v := h
      cases hm3 : s3 with
      | nil => exact absurd hm3 hne3
      | cons q ys =>
        rw [hm3] at h
        cases ys with
        | cons r zs =>
          rw [if_pos (by simp)] at h
          exact absurd h (by simp)
        | nil =>
          rw [if_neg (by simp)] at h
          replace h : (Except.ok q.1 : Except PyErr PyVal) = .ok v := h
          injection h with h
          refine ⟨k1', k2, ?_⟩
          rw [hm, hm3, ← h]

theorem tuple_ok_of_shape {a : Identifier} (ha : Canon a) {t : Triple}
    (h : a.tuple = .ok t) :
    a.rank1Map = [(t.1, [(t.2.1, [(t.2.2, ())])])] := by
  rw [tuple] at h
  cases h1 : a.rank_1 with
  | error e => rw [h1] at h; exact absurd h (by simp [Bind.bind, Except.bind])
  | ok k1 =>
    rw [h1] at h
    cases h2 : a.rank_2 with
    | error e => rw [h2] at h; exact absurd h (by simp [Bind.bind, Except.bind])
    | ok k2 =>
      rw [h2] at h
      cases h3 : a.rank_3 with
      | error e => rw [h3] at h; exact absurd h (by simp [Bind.bind, Except.bind])
      | ok k3 =>
        rw [h3] at h
        replace h : (Except.ok (k1, k2, k3) : Except PyErr Triple) = .ok t := h
        injection h with h
        obtain ⟨k1', k2', hm⟩ := rank_3_ok_shape ha h3
        have e1 : k1' = k1 := by
          have := rank_1_singleton hm
          rw [h1] at this
          injection this with this
          exact this.symm
        have e2 : k2' = k2 := by
          have := rank_2_singleton hm
          rw [h2] at this
          injection this with this
          exact this.symm
        rw [← h, hm, e1, e2]

theorem tuple_error_composite {a : Identifier} {e : PyErr}
    (h : a.tuple = .error e) : e = .composite := by
  rw [tuple] at h
  cases h1 : a.rank_1 with
  | error e1 =>
    rw [h1] at h
    replace h : (Except.error e1 : Except PyErr Triple) = .error e := h
    injection h with h
    rw [← h]
    exact rank_1_error_composite h1
  | ok k1 =>
    rw [h1] at h
    cases h2 : a.rank_2 with
    | error e2 =>
      rw [h2] at h
      replace h : (Except.error e2 : Except PyErr Triple) = .error e := h
      injection h with h
      rw [← h]
      exact rank_2_error_composite h2
    | ok k2 =>
      rw [h2] at h
      cases h3 : a.rank_3 with
      | error e3 =>
        rw [h3] at h
        replace h : (Except.error e3 : Except PyErr Triple) = .error e := h
        injection h with h
        rw [← h]
        exact rank_3_error_composite h3
      | ok k3 =>
        rw [h3] at h
        exact absurd h (by simp [Bind.bind, Except.bind, pure, Except.pure])

theorem tuple_ok_iff {a : Identifier} (ha : Canon a) :
    (∃ t, a.tuple = .ok t) ↔ a.componentTriples.length = 1 := by
  rw [componentTriples_length_one_iff ha]
  constructor
  · rintro ⟨t, ht⟩
    exact ⟨t.1, t.2.1, t.2.2, tuple_ok_of_shape ha ht⟩
  · rintro ⟨k1, k2, k3, hm⟩
    exact ⟨(k1, k2, k3), tuple_singleton hm⟩

theorem componentTriples_fst_eq {a : Identifier} {k1 : PyVal} {m2 : Rank2Map}
    (hm : a.rank1Map = [(k1, m2)]) : ∀ t ∈ a.componentTriples, t.1 = k1 := by
  intro t ht
  rw [componentTriples_eq_flatMap, hm] at ht
  simp only [List.flatMap_cons, List.flatMap_nil, List.append_nil, treeRows,
    List.mem_flatMap, rowOf, List.mem_map] at ht
  obtain ⟨p2, _, p3, _, he⟩ := ht
  rw [← he]

theorem componentTriples_snd_eq {a : Identifier} {k1 k2 : PyVal} {s3 : Rank3Set}
    (hm : a.rank1Map = [(k1, [(k2, s3)])]) : ∀ t ∈ a.componentTriples, t.2.1 = k2 := by
  intro t ht
  rw [componentTriples_eq_flatMap, hm] at ht
  rw [List.flatMap_cons, List.flatMap_nil, List.append_nil, treeRows] at ht
  simp only [List.flatMap_cons, List.flatMap_nil, List.append_nil, rowOf,
    List.mem_map] at ht
  obtain ⟨p3, _, he⟩ := ht
  rw [← he]

theorem componentTriples_singleton {a : Identifier} {k1 k2 k3 : PyVal}
    (hm : a.rank1Map = [(k1, [(k2, [(k3, ())])])]) :
    a.componentTriples = [(k1, k2, k3)] := by
  rw [componentTriples_eq_flatMap, hm]
  rfl

theorem isDefiniteTry_error_composite {a : Identifier} {e : PyErr}
    (h : a.isDefiniteTry = .error e) : e = .composite := by
  rw [isDefiniteTry] at h
  cases h1 : a.rank_1 with
  | error e1 =>
    rw [h1] at h
    replace h : (Except.error e1 : Except PyErr Bool) = .error e := h
    injection h with h
    rw [← h]
    exact rank_1_error_composite h1
  | ok k1 =>
    rw [h1] at h
    replace h : (if k1 = PyVal.none then pure false
      else do
        let k2 ← a.rank_2
        if k2 = PyVal.none then pure false
        else do
          let k3 ← a.rank_3
          pure (decide (k3 ≠ PyVal.none)) : Except PyErr Bool) = .error e := h
    by_cases hk1 : k1 = PyVal.none
    · rw [if_pos hk1] at h
      exact absurd h (by simp [pure, Except.pure])
    · rw [if_neg hk1] at h
      cases h2 : a.rank_2 with
      | error e2 =>
        rw [h2] at h
        replace h : (Except.error e2 : Except PyErr Bool) = .error e := h
        injection h with h
        rw [← h]
        exact rank_2_error_composite h2
      | ok k2 =>
        rw [h2] at h
        replace h : (if k2 = PyVal.none then pure false
          else do
            let k3 ← a.rank_3
            pure (decide (k3 ≠ PyVal.none)) : Except PyErr Bool) = .error e := h
        by_cases hk2 : k2 = PyVal.none
        · rw [if_pos hk2] at h
          exact absurd h (by simp [pure, Except.pure])
        · rw [if_neg hk2] at h
          cases h3 : a.rank_3 with
          | error e3 =>
            rw [h3] at h
            replace h : (Except.error e3 : Except PyErr Bool) = .error e := h
            injection h with h
            rw [← h]
            exact rank_3_error_composite h3
          | ok k3 =>
            rw [h3] at h
            exact absurd h (by simp [pure, Except.pure, Bind.bind, Except.bind])

theorem isDefinite_eq_of_componentsOk {a : Identifier} (ha : Canon a) {l : List Triple}
    (h : a.sortedComponents = .ok l) :
    a.isDefinite = .ok (a.componentTriples.all tripleDefinite) := by
  have hperm := sortedComponents_ok_perm h
  rw [isDefinite]
  cases ht : a.isDefiniteTry with
  | error e =>
    have he : e = PyErr.composite := isDefiniteTry_error_composite ht
    subst he
    show (match a.sortedComponents with
      | Except.ok l => (Except.ok (l.all tripleDefinite) : Except PyErr Bool)
      | Except.error e => Except.error e) = Except.ok (a.componentTriples.all tripleDefinite)
    rw [h]
    show (Except.ok (l.all tripleDefinite) : Except PyErr Bool)
      = Except.ok (a.componentTriples.all tripleDefinite)
    rw [perm_all_eq hperm tripleDefinite]
  | ok b =>
    show (Except.ok b : Except PyErr Bool) = Except.ok (a.componentTriples.all tripleDefinite)
    suffices hb : b = a.componentTriples.all tripleDefinite by rw [hb]
    rw [isDefiniteTry] at ht
    cases h1 : a.rank_1 with
    | error e1 =>
      rw [h1] at ht
      exact absurd ht (by simp [Bind.bind, Except.bind])
    | ok k1 =>
      rw [h1] at ht
      replace ht : (if k1 = PyVal.none then pure false
        else do
          let k2 ← a.rank_2
          if k2 = PyVal.none then pure false
          else do
            let k3 ← a.rank_3
            pure (decide (k3 ≠ PyVal.none)) : Except PyErr Bool) = .ok b := ht
      obtain ⟨m2, hm⟩ := rank_1_ok_shape ha h1
      by_cases hk1 : k1 = PyVal.none
      · rw [if_pos hk1] at ht
        replace ht : (Except.ok false : Except PyErr Bool) = .ok b := ht
        injection ht with ht
        rw [← ht]
        symm
        rw [List.all_eq_false]
        obtain ⟨t0, ht0⟩ := List.exists_mem_of_length_pos
          (List.length_pos.mpr (componentTriples_ne_nil ha))
        have hfst := componentTriples_fst_eq hm t0 ht0
        exact ⟨t0, ht0, by simp [tripleDefinite, hfst, hk1]⟩
      · rw [if_neg hk1] at ht
        cases h2 : a.rank_2 with
        | error e2 =>
          rw [h2] at ht
          exact absurd ht (by simp [Bind.bind, Except.bind])
        | ok k2 =>
          rw [h2] at ht
          replace ht : (if k2 = PyVal.none then pure false
            else do
              let k3 ← a.rank_3
              pure (decide (k3 ≠ PyVal.none)) : Except PyErr Bool) = .ok b := ht
          obtain ⟨k1x, s3, hm2⟩ := rank_2_ok_shape ha h2
          have hk1x : k1x = k1 := by
            have hx := rank_1_singleton hm2
            rw [h1] at hx
            injection hx with hx
            exact hx.symm
          by_cases hk2 : k2 = PyVal.none
          · rw [if_pos hk2] at ht
            replace ht : (Except.ok false : Except PyErr Bool) = .ok b := ht
            injection ht with ht
            rw [← ht]
            symm
            rw [List.all_eq_false]
            obtain ⟨t0, ht0⟩ := List.exists_mem_of_length_pos
              (List.length_pos.mpr (componentTriples_ne_nil ha))
            have hsnd := componentTriples_snd_eq hm2 t0 ht0
            exact ⟨t0, ht0, by simp [tripleDefinite, hsnd, hk2]⟩
          · rw [if_neg hk2] at ht
            cases h3 : a.rank_3 with
            | error e3 =>
              rw [h3] at ht
              exact absurd ht (by simp [Bind.bind, Except.bind])
            | ok k3 =>
              rw [h3] at ht
              replace ht : (Except.ok (decide (k3 ≠ PyVal.none)) : Except PyErr Bool)
                = .ok b := ht
              injection ht with ht
              obtain ⟨k1y, k2y, hm3⟩ := rank_3_ok_shape ha h3
              have hk1y : k1y = k1 := by
                have hx := rank_1_singleton hm3
                rw [h1] at hx
                injection hx with hx
                exact hx.symm
              have hk2y : k2y = k2 := by
                have hx := rank_2_singleton hm3
                rw [h2] at hx
                injection hx with hx
                exact hx.symm
              rw [← ht, componentTriples_singleton hm3, hk1y, hk2y]
              simp [tripleDefinite, hk1, hk2]

/-- `is_definite` propagates an exception exactly when the `try` branch
raises `CompositeError` and the fallback's component computation raises:
when the `try` body short-circuits on an unset scalar it returns a
boolean without ever consulting `components`, even if that computation
would raise. -/
theorem isDefinite_error_iff {a : Identifier} {e : PyErr} :
    a.isDefinite = .error e ↔
      a.isDefiniteTry = .error .composite ∧ a.sortedComponents = .error e := by
  rw [isDefinite]
  cases ht : a.isDefiniteTry with
  | ok b => simp
  | error e1 =>
    have he1 : e1 = PyErr.composite := isDefiniteTry_error_composite ht
    subst he1
    cases hs : a.sortedComponents with
    | ok l => simp
    | error e2 => simp

end Identifier

theorem zipCols_maps (cols : List ColKey) :
    zipCols (cols.map fun c => c.1) (cols.map fun c => c.2.1)
      (cols.map fun c => c.2.2) = cols := by
  induction cols with
  | nil => rfl
  | cons c cs ih =>
    rw [List.map_cons, List.map_cons, List.map_cons, zipCols, ih]

theorem parseCell_renderCell {c : Option String} (h : c ≠ some "") :
    parseCell (renderCell c) = c := by
  cases c with
  | none => rfl
  | some s =>
    have hs : s ≠ "" := fun hc => h (by rw [hc])
    simp [renderCell, parseCell, hs]

theorem mapParseRender {cells : List (Option String)} (h : ∀ c ∈ cells, c ≠ some "") :
    (cells.map renderCell).map parseCell = cells := by
  induction cells with
  | nil => rfl
  | cons c cs ih =>
    rw [List.map_cons, List.map_cons, parseCell_renderCell (h c (by simp)),
      ih fun c' hc' => h c' (by simp [hc'])]

theorem parseRow_render {k : RowKey} {cells : List (Option String)}
    (h : ∀ c ∈ cells, c ≠ some "") :
    parseRow (renderRowKey k ++ cells.map renderCell) = some (renderKey k, cells) := by
  show some ((toString k.1, toString k.2.1, toString k.2.2.1, toString k.2.2.2),
    (cells.map renderCell).map parseCell) = some (renderKey k, cells)
  rw [mapParseRender h]
  rfl

theorem mapMO_map_some {A B C : Type} {F : A → B} {f : B → Option C} {g : A → C} :
    ∀ {l : List A}, (∀ x ∈ l, f (F x) = some (g x)) → mapMO f (l.map F) = some (l.map g)
  | [], _ => rfl
  | x :: xs, h => by
    rw [List.map_cons, mapMO, h x (by simp),
      mapMO_map_some fun y hy => h y (by simp [hy]), List.map_cons]

theorem fromCsv_toCsv {t : Table} (h : ∀ p ∈ t.rows, ∀ c ∈ p.2, c ≠ some "") :
    fromCsv (toCsv t) = some (renderTable t) := by
  have hrows : mapMO parseRow (t.rows.map fun p => renderRowKey p.1 ++ p.2.map renderCell)
      = some (t.rows.map fun p => (renderKey p.1, p.2)) :=
    mapMO_map_some fun p hp => parseRow_render (h p hp)
  rw [toCsv]
  show (match mapMO parseRow (t.rows.map fun p => renderRowKey p.1 ++ p.2.map renderCell) with
    | some rows => some (TableS.mk (zipCols (t.cols.map fun c => c.1)
        (t.cols.map fun c => c.2.1) (t.cols.map fun c => c.2.2)) rows)
    | Option.none => Option.none) = some (renderTable t)
  rw [hrows, zipCols_maps]
  rfl

theorem entriesS_renderTable (t : Table) :
    (renderTable t).entriesS = t.entries.map fun e => (renderKey e.1, e.2) := by
  rw [renderTable, TableS.entriesS, Table.entries, List.map_flatMap, List.flatMap_map]
  show (t.rows.flatMap fun p =>
      List.zipWith (fun c v => ((renderKey p.1, p.2).1, c, v)) t.cols (renderKey p.1, p.2).2)
    = t.rows.flatMap fun p =>
      (List.zipWith (fun c v => (p.1, c, v)) t.cols p.2).map fun e => (renderKey e.1, e.2)
  apply congrArg
  funext p
  rw [List.map_zipWith]

namespace Identifier

theorem le_eval {a b : Identifier} {la lb : List Triple}
    (hla : a.sortedComponents = .ok la) (hlb : b.sortedComponents = .ok lb) :
    a.le b = .ok (la.all fun t => decide (t ∈ lb)) := by
  rw [le, hla, hlb]
  rfl

theorem ge_eval {a b : Identifier} {la lb : List Triple}
    (hla : a.sortedComponents = .ok la) (hlb : b.sortedComponents = .ok lb) :
    a.ge b = .ok (lb.all fun t => decide (t ∈ la)) := by
  rw [ge, hla, hlb]
  rfl

theorem lt_eval {a b : Identifier} {la lb : List Triple}
    (hla : a.sortedComponents = .ok la) (hlb : b.sortedComponents = .ok lb) :
    a.lt b = .ok ((la.all fun t => decide (t ∈ lb)) && !(lb.all fun t => decide (t ∈ la))) := by
  rw [lt, hla, hlb]
  rfl

theorem gt_eval {a b : Identifier} {la lb : List Triple}
    (hla : a.sortedComponents = .ok la) (hlb : b.sortedComponents = .ok lb) :
    a.gt b = .ok ((lb.all fun t => decide (t ∈ la)) && !(la.all fun t => decide (t ∈ lb))) := by
  rw [gt, hla, hlb]
  rfl

end Identifier

/-- C3: for reachable identifiers, union (`__or__`) is commutative
(`A | B == B | A`), associative (`(A | B) | C == A | (B | C)`) and
idempotent (`A | A == A`), where `==` is Python's structural dict
equality, i.e. equality of the canonical representations. -/
theorem claim_C3_union_algebra (a b c : Identifier)
    (ha : Identifier.Reachable a) (hb : Identifier.Reachable b)
    (hc : Identifier.Reachable c) :
    a.union b = b.union a
    ∧ (a.union b).union c = a.union (b.union c)
    ∧ a.union a = a :=
  ⟨Identifier.union_comm ha.canon hb.canon,
   Identifier.union_assoc ha.canon hb.canon hc.canon,
   Identifier.union_idem ha.canon⟩

/-- Witness for C3 at concrete identifiers. -/
theorem claim_C3_union_algebra_witness :
    (Identifier.init (PyVal.int 1) PyVal.none (PyVal.str "x")).union
        (Identifier.init (PyVal.int 1) (PyVal.int 2) (PyVal.int 3))
      = (Identifier.init (PyVal.int 1) (PyVal.int 2) (PyVal.int 3)).union
        (Identifier.init (PyVal.int 1) PyVal.none (PyVal.str "x"))
    ∧ ((Identifier.init (PyVal.int 1) PyVal.none (PyVal.str "x")).union
        (Identifier.init (PyVal.int 1) (PyVal.int 2) (PyVal.int 3))).union
        (Identifier.init (PyVal.int 4) (PyVal.int 5) (PyVal.int 6))
      = (Identifier.init (PyVal.int 1) PyVal.none (PyVal.str "x")).union
        ((Identifier.init (PyVal.int 1) (PyVal.int 2) (PyVal.int 3)).union
          (Identifier.init (PyVal.int 4) (PyVal.int 5) (PyVal.int 6)))
    ∧ (Identifier.init (PyVal.int 1) PyVal.none (PyVal.str "x")).union
        (Identifier.init (PyVal.int 1) PyVal.none (PyVal.str "x"))
      = Identifier.init (PyVal.int 1) PyVal.none (PyVal.str "x") :=
  claim_C3_union_algebra _ _ _
    (Identifier.Reachable.init _ _ _) (Identifier.Reachable.init _ _ _)
    (Identifier.Reachable.init _ _ _)

/-- C4 counterexample: the claim quantifies over all identifiers, but
for `A = Identifier(1, 1, 1)` and `B = Identifier("a", 1, 1)` the
component sets of `A` and `B` are defined while `components(A | B)`
raises `TypeError` (the rank-1 keys `1` and `"a"` do not sort), so
`components(Union(A,B)) = components(A) ∪ components(B)` fails. -/
theorem claim_C4_counterexample :
    (Identifier.init (PyVal.int 1) (PyVal.int 1) (PyVal.int 1)).sortedComponents
      = .ok [(PyVal.int 1, PyVal.int 1, PyVal.int 1)]
    ∧ (Identifier.init (PyVal.str "a") (PyVal.int 1) (PyVal.int 1)).sortedComponents
      = .ok [(PyVal.str "a", PyVal.int 1, PyVal.int 1)]
    ∧ ((Identifier.init (PyVal.int 1) (PyVal.int 1) (PyVal.int 1)).union
        (Identifier.init (PyVal.str "a") (PyVal.int 1) (PyVal.int 1))).sortedComponents
      = .error .typeError :=
  ⟨rfl, rfl, rfl⟩

/-- C4 amended: whenever the component computations of `A`, `B` and
`A | B` all succeed, the component set of the union is the union of the
component sets - shared rank-1/rank-2 keys are merged recursively and
rank-3 sets unioned at the deepest shared level, keys present in only
one operand passing through. -/
theorem claim_C4_amended (a b : Identifier)
    (ha : Identifier.Reachable a) (hb : Identifier.Reachable b)
    {la lb lu : List Triple}
    (hla : a.sortedComponents = .ok la) (hlb : b.sortedComponents = .ok lb)
    (hlu : (a.union b).sortedComponents = .ok lu) :
    ∀ t, t ∈ lu ↔ (t ∈ la ∨ t ∈ lb) := by
  intro t
  rw [(Identifier.sortedComponents_ok_perm hlu).mem_iff,
    (Identifier.sortedComponents_ok_perm hla).mem_iff,
    (Identifier.sortedComponents_ok_perm hlb).mem_iff]
  exact Identifier.mem_componentTriples_union ha.canon hb.canon t

/-- Witness for the amended C4 at concrete identifiers sharing their
rank-1 and rank-2 keys. -/
theorem claim_C4_amended_witness :
    ((Identifier.init (PyVal.int 1) (PyVal.int 2) (PyVal.int 3)).union
        (Identifier.init (PyVal.int 1) (PyVal.int 2) (PyVal.int 4))).sortedComponents
      = .ok [(PyVal.int 1, PyVal.int 2, PyVal.int 3), (PyVal.int 1, PyVal.int 2, PyVal.int 4)]
    ∧ ∀ t, t ∈ [(PyVal.int 1, PyVal.int 2, PyVal.int 3),
        (PyVal.int 1, PyVal.int 2, PyVal.int 4)]
      ↔ (t ∈ [(PyVal.int 1, PyVal.int 2, PyVal.int 3)]
          ∨ t ∈ [(PyVal.int 1, PyVal.int 2, PyVal.int 4)]) :=
  ⟨rfl, claim_C4_amended _ _
    (Identifier.Reachable.init _ _ _) (Identifier.Reachable.init _ _ _)
    rfl rfl rfl⟩

/-- C5 counterexample: Python `==` on identifiers is structural dict
equality and never raises, but `<=` computes the component sets; for the
mixed-kind composite `A = Identifier(1, None, None) | Identifier("a",
None, None)` we have `A == A` while `A <= A` raises `TypeError`, so
"`A == B` iff both `A <= B` and `B <= A`" fails. -/
theorem claim_C5_counterexample :
    (Identifier.init (PyVal.int 1) PyVal.none PyVal.none).union
        (Identifier.init (PyVal.str "a") PyVal.none PyVal.none)
      = (Identifier.init (PyVal.int 1) PyVal.none PyVal.none).union
        (Identifier.init (PyVal.str "a") PyVal.none PyVal.none)
    ∧ Identifier.le
        ((Identifier.init (PyVal.int 1) PyVal.none PyVal.none).union
          (Identifier.init (PyVal.str "a") PyVal.none PyVal.none))
        ((Identifier.init (PyVal.int 1) PyVal.none PyVal.none).union
          (Identifier.init (PyVal.str "a") PyVal.none PyVal.none))
      = .error .typeError :=
  ⟨rfl, rfl⟩

/-- C5 amended: for reachable identifiers whose component computations
succeed, `A <= B` holds iff `components(A)` is a subset of
`components(B)` (with `<`, `>=`, `>` the strict-subset, superset and
strict-superset analogues), and structural equality `A == B` holds iff
both `A <= B` and `B <= A`. -/
theorem claim_C5_amended (a b : Identifier)
    (ha : Identifier.Reachable a) (hb : Identifier.Reachable b)
    {la lb : List Triple}
    (hla : a.sortedComponents = .ok la) (hlb : b.sortedComponents = .ok lb) :
    (a.le b = .ok true ↔ ∀ t ∈ la, t ∈ lb)
    ∧ (a.ge b = .ok true ↔ ∀ t ∈ lb, t ∈ la)
    ∧ (a.lt b = .ok true ↔ ((∀ t ∈ la, t ∈ lb) ∧ ¬ ∀ t ∈ lb, t ∈ la))
    ∧ (a.gt b = .ok true ↔ ((∀ t ∈ lb, t ∈ la) ∧ ¬ ∀ t ∈ la, t ∈ lb))
    ∧ (a = b ↔ (a.le b = .ok true ∧ b.le a = .ok true)) := by
  have hle := Identifier.le_eval hla hlb
  have hle' := Identifier.le_eval hlb hla
  have hge := Identifier.ge_eval hla hlb
  have hlt := Identifier.lt_eval hla hlb
  have hgt := Identifier.gt_eval hla hlb
  refine ⟨?_, ?_, ?_, ?_, ?_⟩
  · rw [hle]
    simp [List.all_eq_true]
  · rw [hge]
    simp [List.all_eq_true]
  · rw [hlt]
    simp [List.all_eq_true]
  · rw [hgt]
    simp [List.all_eq_true]
  · constructor
    · intro he
      subst he
      rw [hla] at hlb
      injection hlb with hlb
      subst hlb
      constructor
      · rw [hle]
        simp [List.all_eq_true]
      · rw [hle']
        simp [List.all_eq_true]
    · rintro ⟨h1, h2⟩
      rw [hle] at h1
      rw [hle'] at h2
      injection h1 with h1
      injection h2 with h2
      rw [List.all_eq_true] at h1 h2
      apply Identifier.canon_eq_of_componentTriples ha.canon hb.canon
      intro t
      rw [← (Identifier.sortedComponents_ok_perm hla).mem_iff,
        ← (Identifier.sortedComponents_ok_perm hlb).mem_iff]
      constructor
      · intro hx
        simpa using h1 t hx
      · intro hx
        simpa using h2 t hx

/-- Witness for the amended C5 at concrete equal identifiers. -/
theorem claim_C5_amended_witness :
    (Identifier.le (Identifier.init (PyVal.int 1) (PyVal.int 2) (PyVal.int 3))
        (Identifier.init (PyVal.int 1) (PyVal.int 2) (PyVal.int 3)) = .ok true
      ↔ ∀ t ∈ [(PyVal.int 1, PyVal.int 2, PyVal.int 3)],
          t ∈ [(PyVal.int 1, PyVal.int 2, PyVal.int 3)])
    ∧ (Identifier.ge (Identifier.init (PyVal.int 1) (PyVal.int 2) (PyVal.int 3))
        (Identifier.init (PyVal.int 1) (PyVal.int 2) (PyVal.int 3)) = .ok true
      ↔ ∀ t ∈ [(PyVal.int 1, PyVal.int 2, PyVal.int 3)],
          t ∈ [(PyVal.int 1, PyVal.int 2, PyVal.int 3)])
    ∧ (Identifier.lt (Identifier.init (PyVal.int 1) (PyVal.int 2) (PyVal.int 3))
        (Identifier.init (PyVal.int 1) (PyVal.int 2) (PyVal.int 3)) = .ok true
      ↔ ((∀ t ∈ [(PyVal.int 1, PyVal.int 2, PyVal.int 3)],
            t ∈ [(PyVal.int 1, PyVal.int 2, PyVal.int 3)])
          ∧ ¬ ∀ t ∈ [(PyVal.int 1, PyVal.int 2, PyVal.int 3)],
              t ∈ [(PyVal.int 1, PyVal.int 2, PyVal.int 3)]))
    ∧ (Identifier.gt (Identifier.init (PyVal.int 1) (PyVal.int 2) (PyVal.int 3))
        (Identifier.init (PyVal.int 1) (PyVal.int 2) (PyVal.int 3)) = .ok true
      ↔ ((∀ t ∈ [(PyVal.int 1, PyVal.int 2, PyVal.int 3)],
            t ∈ [(PyVal.int 1, PyVal.int 2, PyVal.int 3)])
          ∧ ¬ ∀ t ∈ [(PyVal.int 1, PyVal.int 2, PyVal.int 3)],
              t ∈ [(PyVal.int 1, PyVal.int 2, PyVal.int 3)]))
    ∧ (Identifier.init (PyVal.int 1) (PyVal.int 2) (PyVal.int 3)
        = Identifier.init (PyVal.int 1) (PyVal.int 2) (PyVal.int 3)
      ↔ (Identifier.le (Identifier.init (PyVal.int 1) (PyVal.int 2) (PyVal.int 3))
          (Identifier.init (PyVal.int 1) (PyVal.int 2) (PyVal.int 3)) = .ok true
        ∧ Identifier.le (Identifier.init (PyVal.int 1) (PyVal.int 2) (PyVal.int 3))
          (Identifier.init (PyVal.int 1) (PyVal.int 2) (PyVal.int 3)) = .ok true)) :=
  claim_C5_amended _ _
    (Identifier.Reachable.init _ _ _) (Identifier.Reachable.init _ _ _) rfl rfl

/-- C6 counterexample: `A = Identifier(1, 2, 3) | Identifier(1, 2, 4)`
is composite (two components), yet `_rank_1` and `_rank_2` succeed -
they fail only when their own rank has several values - so "each
scalar-field access on a composite identifier always fails with
CompositeError" is false. -/
theorem claim_C6_counterexample :
    1 < (((Identifier.init (PyVal.int 1) (PyVal.int 2) (PyVal.int 3)).union
        (Identifier.init (PyVal.int 1) (PyVal.int 2) (PyVal.int 4))).componentTriples).length
    ∧ ((Identifier.init (PyVal.int 1) (PyVal.int 2) (PyVal.int 3)).union
        (Identifier.init (PyVal.int 1) (PyVal.int 2) (PyVal.int 4))).rank_1
      = .ok (PyVal.int 1)
    ∧ ((Identifier.init (PyVal.int 1) (PyVal.int 2) (PyVal.int 3)).union
        (Identifier.init (PyVal.int 1) (PyVal.int 2) (PyVal.int 4))).rank_2
      = .ok (PyVal.int 2) :=
  ⟨by decide, rfl, rfl⟩

/-- C6 amended: on a reachable identifier, `.tuple` succeeds iff the
identifier is fundamental (exactly one component) and otherwise fails
with CompositeError; `_rank_k` fails (always with CompositeError) iff
some rank at or above `k` holds more than one value; on a fundamental
identifier every accessor succeeds, returning the construction values;
construction and union are total (they are plain functions here). -/
theorem claim_C6_amended (a : Identifier) (h : Identifier.Reachable a) :
    ((∃ t, a.tuple = .ok t) ↔ a.componentTriples.length = 1)
    ∧ (∀ e, a.tuple = .error e → e = .composite)
    ∧ ((∃ v, a.rank_1 = .ok v) ↔ a.rank1Map.length = 1)
    ∧ ((∃ v, a.rank_2 = .ok v) ↔ ∃ k1 m2, a.rank1Map = [(k1, m2)] ∧ m2.length = 1)
    ∧ ((∃ v, a.rank_3 = .ok v)
        ↔ ∃ k1 k2 s3, a.rank1Map = [(k1, [(k2, s3)])] ∧ s3.length = 1)
    ∧ (∀ e, a.rank_1 = .error e → e = .composite)
    ∧ (∀ e, a.rank_2 = .error e → e = .composite)
    ∧ (∀ e, a.rank_3 = .error e → e = .composite)
    ∧ (∀ r1 r2 r3, (Identifier.init r1 r2 r3).rank_1 = .ok r1
        ∧ (Identifier.init r1 r2 r3).rank_2 = .ok r2
        ∧ (Identifier.init r1 r2 r3).rank_3 = .ok r3
        ∧ (Identifier.init r1 r2 r3).tuple = .ok (r1, r2, r3)) := by
  have ha := h.canon
  refine ⟨Identifier.tuple_ok_iff ha, fun e he => Identifier.tuple_error_composite he,
    ?_, ?_, ?_,
    fun e he => Identifier.rank_1_error_composite he,
    fun e he => Identifier.rank_2_error_composite he,
    fun e he => Identifier.rank_3_error_composite he,
    fun r1 r2 r3 => ⟨Identifier.rank_1_singleton rfl, Identifier.rank_2_singleton rfl,
      Identifier.rank_3_singleton rfl, Identifier.tuple_singleton rfl⟩⟩
  · constructor
    · rintro ⟨v, hv⟩
      obtain ⟨m2, hm⟩ := Identifier.rank_1_ok_shape ha hv
      rw [hm]
      rfl
    · intro hlen
      cases hm : a.rank1Map with
      | nil => rw [hm] at hlen; simp at hlen
      | cons p xs =>
        cases xs with
        | nil => exact ⟨p.1, Identifier.rank_1_singleton hm⟩
        | cons q ys => rw [hm] at hlen; simp at hlen
  · constructor
    · rintro ⟨v, hv⟩
      obtain ⟨k1, s3, hm⟩ := Identifier.rank_2_ok_shape ha hv
      exact ⟨k1, [(v, s3)], hm, rfl⟩
    · rintro ⟨k1, m2, hm, hlen⟩
      cases hm2 : m2 with
      | nil => rw [hm2] at hlen; simp at hlen
      | cons q ys =>
        cases ys with
        | nil =>
          rw [hm2] at hm
          exact ⟨q.1, Identifier.rank_2_singleton hm⟩
        | cons r zs => rw [hm2] at hlen; simp at hlen
  · constructor
    · rintro ⟨v, hv⟩
      obtain ⟨k1, k2, hm⟩ := Identifier.rank_3_ok_shape ha hv
      exact ⟨k1, k2, [(v, ())], hm, rfl⟩
    · rintro ⟨k1, k2, s3, hm, hlen⟩
      cases hm3 : s3 with
      | nil => rw [hm3] at hlen; simp at hlen
      | cons q ys =>
        cases ys with
        | nil =>
          obtain ⟨k3, u⟩ := q
          cases u
          rw [hm3] at hm
          exact ⟨k3, Identifier.rank_3_singleton hm⟩
        | cons r zs => rw [hm3] at hlen; simp at hlen

/-- Witness for the amended C6 at a concrete composite identifier. -/
theorem claim_C6_amended_witness :
    ((∃ t, ((Identifier.init (PyVal.int 1) (PyVal.int 2) (PyVal.int 3)).union
        (Identifier.init (PyVal.int 1) (PyVal.int 2) (PyVal.int 4))).tuple = .ok t)
      ↔ ((Identifier.init (PyVal.int 1) (PyVal.int 2) (PyVal.int 3)).union
        (Identifier.init (PyVal.int 1) (PyVal.int 2) (PyVal.int 4))).componentTriples.length
          = 1)
    ∧ (∀ e, ((Identifier.init (PyVal.int 1) (PyVal.int 2) (PyVal.int 3)).union
        (Identifier.init (PyVal.int 1) (PyVal.int 2) (PyVal.int 4))).tuple = .error e
        → e = .composite)
    ∧ ((∃ v, ((Identifier.init (PyVal.int 1) (PyVal.int 2) (PyVal.int 3)).union
        (Identifier.init (PyVal.int 1) (PyVal.int 2) (PyVal.int 4))).rank_1 = .ok v)
      ↔ ((Identifier.init (PyVal.int 1) (PyVal.int 2) (PyVal.int 3)).union
        (Identifier.init (PyVal.int 1) (PyVal.int 2) (PyVal.int 4))).rank1Map.length = 1)
    ∧ ((∃ v, ((Identifier.init (PyVal.int 1) (PyVal.int 2) (PyVal.int 3)).union
        (Identifier.init (PyVal.int 1) (PyVal.int 2) (PyVal.int 4))).rank_2 = .ok v)
      ↔ ∃ k1 m2, ((Identifier.init (PyVal.int 1) (PyVal.int 2) (PyVal.int 3)).union
        (Identifier.init (PyVal.int 1) (PyVal.int 2) (PyVal.int 4))).rank1Map = [(k1, m2)]
          ∧ m2.length = 1)
    ∧ ((∃ v, ((Identifier.init (PyVal.int 1) (PyVal.int 2) (PyVal.int 3)).union
        (Identifier.init (PyVal.int 1) (PyVal.int 2) (PyVal.int 4))).rank_3 = .ok v)
      ↔ ∃ k1 k2 s3, ((Identifier.init (PyVal.int 1) (PyVal.int 2) (PyVal.int 3)).union
        (Identifier.init (PyVal.int 1) (PyVal.int 2) (PyVal.int 4))).rank1Map
          = [(k1, [(k2, s3)])] ∧ s3.length = 1)
    ∧ (∀ e, ((Identifier.init (PyVal.int 1) (PyVal.int 2) (PyVal.int 3)).union
        (Identifier.init (PyVal.int 1) (PyVal.int 2) (PyVal.int 4))).rank_1 = .error e
        → e = .composite)
    ∧ (∀ e, ((Identifier.init (PyVal.int 1) (PyVal.int 2) (PyVal.int 3)).union
        (Identifier.init (PyVal.int 1) (PyVal.int 2) (PyVal.int 4))).rank_2 = .error e
        → e = .composite)
    ∧ (∀ e, ((Identifier.init (PyVal.int 1) (PyVal.int 2) (PyVal.int 3)).union
        (Identifier.init (PyVal.int 1) (PyVal.int 2) (PyVal.int 4))).rank_3 = .error e
        → e = .composite)
    ∧ (∀ r1 r2 r3, (Identifier.init r1 r2 r3).rank_1 = .ok r1
        ∧ (Identifier.init r1 r2 r3).rank_2 = .ok r2
        ∧ (Identifier.init r1 r2 r3).rank_3 = .ok r3
        ∧ (Identifier.init r1 r2 r3).tuple = .ok (r1, r2, r3)) :=
  claim_C6_amended _
    (Identifier.Reachable.union (Identifier.Reachable.init _ _ _)
      (Identifier.Reachable.init _ _ _))

/-- C7 counterexample: for the composite identifier
`Identifier(None, 2, 3) | Identifier(1, 2, 3)` the rank-1 keys mix the
unset sentinel with a scalar, and `_sorted_components` raises
`TypeError` (Python's `sorted` cannot compare `None` with `1`), so it
is not total. -/
theorem claim_C7_counterexample :
    ((Identifier.init PyVal.none (PyVal.int 2) (PyVal.int 3)).union
      (Identifier.init (PyVal.int 1) (PyVal.int 2) (PyVal.int 3))).sortedComponents
      = .error .typeError :=
  rfl

/-- C7 amended: computing the sorted component list succeeds exactly on
the identifiers whose keys at every level are kind-homogeneous (at most
one key, or all ints, or all strings); whenever a level mixes the unset
sentinel with scalars - or two scalar kinds - it raises `TypeError`. -/
theorem claim_C7_amended (a : Identifier) :
    exOk a.sortedComponents = true ↔ Identifier.KindsOk a :=
  Identifier.sortedComponents_isOk_iff

/-- C8 counterexample: for
`A = Identifier(1, 2, 3) | Identifier(1, "x", 4)` every component field
is a scalar, so the claim says `is_definite(A)` holds; but the scalar
accessors raise CompositeError, the fallback computes `components`, and
sorting the mixed rank-2 keys `2` and `"x"` raises `TypeError` instead
of returning a boolean. -/
theorem claim_C8_counterexample :
    ((Identifier.init (PyVal.int 1) (PyVal.int 2) (PyVal.int 3)).union
        (Identifier.init (PyVal.int 1) (PyVal.str "x") (PyVal.int 4))).isDefinite
      = .error .typeError
    ∧ (((Identifier.init (PyVal.int 1) (PyVal.int 2) (PyVal.int 3)).union
        (Identifier.init (PyVal.int 1) (PyVal.str "x") (PyVal.int 4))).componentTriples.all
          Identifier.tripleDefinite) = true :=
  ⟨rfl, rfl⟩

/-- C8 amended: on a reachable identifier whose component computation
does not raise, `is_definite` returns a boolean that is true iff no
field of any component carries the unset sentinel (so a composite
identifier is definite iff every fundamental component is definite);
and `is_definite` raises exactly when the `try` branch of scalar
accessors raises `CompositeError` and the fallback's component
computation raises - when the `try` body short-circuits on an unset
rank-1 or rank-2 value, `is_definite` returns `False` without
consulting `components`, even if that computation would raise. -/
theorem claim_C8_amended (a : Identifier) (h : Identifier.Reachable a) :
    (∀ l, a.sortedComponents = .ok l →
      (a.isDefinite = .ok true ↔ ∀ t ∈ a.componentTriples,
        t.1 ≠ PyVal.none ∧ t.2.1 ≠ PyVal.none ∧ t.2.2 ≠ PyVal.none))
    ∧ (∀ e, a.isDefinite = .error e ↔
        a.isDefiniteTry = .error .composite ∧ a.sortedComponents = .error e) := by
  refine ⟨fun l hl => ?_, fun e => Identifier.isDefinite_error_iff⟩
  rw [Identifier.isDefinite_eq_of_componentsOk h.canon hl]
  simp [List.all_eq_true, Identifier.tripleDefinite, and_assoc]

/-- Witness for the amended C8: the boolean part at the definite
fundamental identifier `Identifier(1, 2, 3)`, and the error
characterization at the composite `Identifier(1, 2, 3) | Identifier(1,
"x", 4)`, whose accessors raise `CompositeError` and whose component
computation raises `TypeError`. -/
theorem claim_C8_amended_witness :
    ((Identifier.init (PyVal.int 1) (PyVal.int 2) (PyVal.int 3)).isDefinite = .ok true
      ↔ ∀ t ∈ (Identifier.init (PyVal.int 1) (PyVal.int 2) (PyVal.int 3)).componentTriples,
          t.1 ≠ PyVal.none ∧ t.2.1 ≠ PyVal.none ∧ t.2.2 ≠ PyVal.none)
    ∧ (((Identifier.init (PyVal.int 1) (PyVal.int 2) (PyVal.int 3)).union
          (Identifier.init (PyVal.int 1) (PyVal.str "x") (PyVal.int 4))).isDefinite
        = .error .typeError
      ↔ ((Identifier.init (PyVal.int 1) (PyVal.int 2) (PyVal.int 3)).union
          (Identifier.init (PyVal.int 1) (PyVal.str "x") (PyVal.int 4))).isDefiniteTry
          = .error .composite
        ∧ ((Identifier.init (PyVal.int 1) (PyVal.int 2) (PyVal.int 3)).union
          (Identifier.init (PyVal.int 1) (PyVal.str "x") (PyVal.int 4))).sortedComponents
          = .error .typeError) :=
  ⟨(claim_C8_amended _ (Identifier.Reachable.init _ _ _)).1 _ rfl,
   (claim_C8_amended _ (Identifier.Reachable.union
      (Identifier.Reachable.init _ _ _) (Identifier.Reachable.init _ _ _))).2 _⟩

/-- C10: every identifier reachable through construction and union has
a non-empty rank-1 dict whose values are non-empty rank-2 dicts whose
values are non-empty rank-3 sets, and on reachable identifiers
structural equality coincides with equality of the component-triple
sets (the tree is exactly the canonical grouping of its leaf triples). -/
theorem claim_C10_invariant (a b : Identifier)
    (ha : Identifier.Reachable a) (hb : Identifier.Reachable b) :
    (a.rank1Map ≠ [] ∧ ∀ p1 ∈ a.rank1Map, p1.2 ≠ [] ∧ ∀ p2 ∈ p1.2, p2.2 ≠ [])
    ∧ (a = b ↔ ∀ t : Triple, t ∈ a.componentTriples ↔ t ∈ b.componentTriples) := by
  have hca := ha.canon
  refine ⟨⟨hca.2.1, fun p1 hp1 => ⟨(hca.2.2 p1 hp1).2.1,
    fun p2 hp2 => ((hca.2.2 p1 hp1).2.2 p2 hp2).2⟩⟩, ?_, ?_⟩
  · rintro rfl
    exact fun t => Iff.rfl
  · intro hiff
    exact Identifier.canon_eq_of_componentTriples hca hb.canon hiff

/-- Witness for C10 at concrete identifiers. -/
theorem claim_C10_invariant_witness :
    (((Identifier.init (PyVal.int 1) PyVal.none (PyVal.int 3)).union
        (Identifier.init (PyVal.int 2) PyVal.none (PyVal.int 4))).rank1Map ≠ []
      ∧ ∀ p1 ∈ ((Identifier.init (PyVal.int 1) PyVal.none (PyVal.int 3)).union
        (Identifier.init (PyVal.int 2) PyVal.none (PyVal.int 4))).rank1Map,
          p1.2 ≠ [] ∧ ∀ p2 ∈ p1.2, p2.2 ≠ [])
    ∧ ((Identifier.init (PyVal.int 1) PyVal.none (PyVal.int 3)).union
        (Identifier.init (PyVal.int 2) PyVal.none (PyVal.int 4))
      = Identifier.init (PyVal.int 5) PyVal.none (PyVal.int 6)
      ↔ ∀ t : Triple,
          t ∈ ((Identifier.init (PyVal.int 1) PyVal.none (PyVal.int 3)).union
            (Identifier.init (PyVal.int 2) PyVal.none (PyVal.int 4))).componentTriples
          ↔ t ∈ (Identifier.init (PyVal.int 5) PyVal.none (PyVal.int 6)).componentTriples) :=
  claim_C10_invariant _ _
    (Identifier.Reachable.union (Identifier.Reachable.init _ _ _)
      (Identifier.Reachable.init _ _ _))
    (Identifier.Reachable.init _ _ _)

/-- C1: for every well-formed register table (cells are missing or
non-empty path strings, rows aligned with the columns), persisting to
the CSV cache and loading back succeeds and yields a table whose set of
(row-key, column-key) -> value entries is identical to the original's
(keys round-tripped as strings), independent of iteration order, with
missing cells stored as an empty field. -/
theorem claim_C1_cache_roundtrip (t : Table) (h : t.WellFormed) :
    renderCell Option.none = ""
    ∧ ∃ t2 : TableS, fromCsv (toCsv t) = some t2
      ∧ ∀ e, e ∈ t2.entriesS ↔ ∃ e0 ∈ t.entries, (renderKey e0.1, e0.2) = e := by
  refine ⟨rfl, renderTable t, fromCsv_toCsv fun p hp => (h p hp).2, ?_⟩
  intro e
  rw [entriesS_renderTable]
  exact List.mem_map

/-- Witness for C1 at a concrete two-row table with one missing cell. -/
theorem claim_C1_cache_roundtrip_witness :
    Table.WellFormed ⟨[("ins", "Label", "png")],
      [((1, 2, 3, 4), [some "p"]), ((1, 2, 3, 5), [Option.none])]⟩
    ∧ (renderCell Option.none = ""
      ∧ ∃ t2 : TableS,
        fromCsv (toCsv ⟨[("ins", "Label", "png")],
          [((1, 2, 3, 4), [some "p"]), ((1, 2, 3, 5), [Option.none])]⟩) = some t2
        ∧ ∀ e, e ∈ t2.entriesS
            ↔ ∃ e0 ∈ Table.entries ⟨[("ins", "Label", "png")],
                [((1, 2, 3, 4), [some "p"]), ((1, 2, 3, 5), [Option.none])]⟩,
              (renderKey e0.1, e0.2) = e) :=
  ⟨by unfold Table.WellFormed; decide,
   claim_C1_cache_roundtrip _ (by unfold Table.WellFormed; decide)⟩

/-- C2 counterexample: on a table with two columns and two rows where
exactly one cell is missing (and so no column is entirely empty), the
claim predicts `Types` keeps both rows and drops nothing, but
`Register.types` calls `.dropna()`, which drops the row with the
missing cell: the code keeps 1 row where the claim's description keeps
2. -/
theorem claim_C2_counterexample :
    (Table.types ⟨[("a", "b", "c"), ("a", "b", "d")],
        [((1, 1, 1, 1), [some "p", some "q"]), ((1, 1, 1, 2), [some "r", Option.none])]⟩
      [some ⟨Option.none, Option.none, Option.none⟩]).rows.length = 1
    ∧ (Table.typesSpecDescribed ⟨[("a", "b", "c"), ("a", "b", "d")],
        [((1, 1, 1, 1), [some "p", some "q"]), ((1, 1, 1, 2), [some "r", Option.none])]⟩
      [some ⟨Option.none, Option.none, Option.none⟩]).rows.length = 2
    ∧ (Table.types ⟨[("a", "b", "c"), ("a", "b", "d")],
        [((1, 1, 1, 1), [some "p", some "q"]), ((1, 1, 1, 2), [some "r", Option.none])]⟩
      [some ⟨Option.none, Option.none, Option.none⟩]).cols = [("a", "b", "c"), ("a", "b", "d")] :=
  ⟨rfl, rfl, rfl⟩

/-- C2 amended: `Register.types(type_ids)` returns the column-axis
concatenation of `type_slice` over the list, from which exactly the
rows containing at least one empty cell are dropped; no column is
removed, and before the drop the row keys are exactly the table's row
keys. -/
theorem claim_C2_amended (r : Table) (ts : List (Option TypeId)) :
    (r.types ts).cols = (r.hjoin ts).cols
    ∧ (r.hjoin ts).rows.map Prod.fst = r.rows.map Prod.fst
    ∧ ∀ p, p ∈ (r.types ts).rows
        ↔ (p ∈ (r.hjoin ts).rows ∧ ∀ c ∈ p.2, c.isSome = true) := by
  refine ⟨rfl, ?_, ?_⟩
  · show ((r.rows.map fun p => (p.1, ts.flatMap fun t => r.sliceCells t p.2)).map
      Prod.fst) = r.rows.map Prod.fst
    rw [List.map_map]
    rfl
  · intro p
    show p ∈ (r.hjoin ts).rows.filter (fun p => p.2.all Option.isSome) ↔ _
    rw [List.mem_filter, List.all_eq_true]

/-- C9: when the cache file does not exist, `_df_from_cache` fails with
the cache-not-found condition, and construction with
`use_cache_index=True` recovers by falling back to building from the
file-system scan; the condition is never fatal: no register
construction ever propagates the cache-not-found error to the caller. -/
theorem claim_C9_cache_fallback (env : Env) (h : env.cacheExists = false) :
    df_from_cache env = .error .cacheNotFound
    ∧ registerInit env true = (df_from_file_system env).map RegisterData.fromScan
    ∧ (env.rootExists = true → registerInit env true = .ok (.fromScan env.scanTable))
    ∧ ∀ env2 : Env, ∀ useCache : Bool,
        registerInit env2 useCache ≠ .error .cacheNotFound := by
  have h1 : df_from_cache env = .error .cacheNotFound := by
    rw [df_from_cache, h]
    rfl
  refine ⟨h1, ?_, ?_, ?_⟩
  · rw [registerInit, if_pos rfl, h1]
  · intro hr
    rw [registerInit, if_pos rfl, h1, df_from_file_system, if_pos hr]
    rfl
  · intro env2 useCache
    have hfs : (df_from_file_system env2).map RegisterData.fromScan
        ≠ .error FsError.cacheNotFound := by
      rw [df_from_file_system]
      by_cases hr : env2.rootExists = true
      · rw [if_pos hr]
        simp [Except.map]
      · rw [if_neg hr]
        simp [Except.map]
    rw [registerInit]
    cases useCache with
    | false =>
      rw [if_neg (by simp)]
      exact hfs
    | true =>
      rw [if_pos rfl]
      cases hc : df_from_cache env2 with
      | ok t => simp
      | error e => exact hfs

/-- Witness for C9 at a concrete environment with no cache file. -/
theorem claim_C9_cache_fallback_witness :
    df_from_cache ⟨false, ⟨[], []⟩, true, ⟨[], []⟩⟩ = .error .cacheNotFound
    ∧ registerInit ⟨false, ⟨[], []⟩, true, ⟨[], []⟩⟩ true
      = (df_from_file_system ⟨false, ⟨[], []⟩, true, ⟨[], []⟩⟩).map RegisterData.fromScan
    ∧ ((⟨false, ⟨[], []⟩, true, ⟨[], []⟩⟩ : Env).rootExists = true
      → registerInit ⟨false, ⟨[], []⟩, true, ⟨[], []⟩⟩ true
        = .ok (.fromScan (⟨false, ⟨[], []⟩, true, ⟨[], []⟩⟩ : Env).scanTable))
    ∧ ∀ env2 : Env, ∀ useCache : Bool,
        registerInit env2 useCache ≠ .error .cacheNotFound :=
  claim_C9_cache_fallback ⟨false, ⟨[], []⟩, true, ⟨[], []⟩⟩ rfl

